import Mathlib

/-!
Verification of the generals_io_rs game-state model, opponent inference and
search-engine glue (a shallow embedding of `src/state.rs`, `src/enemy.rs`,
`src/utils.rs`, `src/mcts.rs`).

Conventions of the embedding:
* Machine integers are `Nat` with explicit wrapping where the Rust release
  build wraps: `wadd`/`wsub` are u16 arithmetic mod 2^16, `wadd8`/`wsub8`
  are u8 arithmetic mod 2^8 (the shipped binary is a release build, where
  Rust integer arithmetic wraps on overflow).
* The board `[[Tile; W]; H]` (instantiated with `W = H` by the source) is a
  total function `Fin n × Fin n → Tile`; locations are in-bounds by type,
  mirroring the fact that an out-of-bounds index is a Rust panic.
* Panics (`panic!`, `unwrap`, index/arithmetic aborts on the checked paths)
  are modelled as `Option.none`; fallible operations return `Option`.
* Player ids are `Fin P` (the source's `u8` ids indexing `[_; PLAYER_COUNT]`
  arrays, where an out-of-range id is an index panic).
-/

namespace GeneralsIo

/-- u16 wrapping addition: `a + b` on `u16` in a Rust release build. -/
def wadd (a b : Nat) : Nat := (a + b) % 65536

/-- u16 wrapping subtraction: `a - b` on `u16` in a Rust release build. -/
def wsub (a b : Nat) : Nat := (a + (65536 - b % 65536)) % 65536

/-- u8 wrapping addition (used by the fog-mask bookkeeping, which casts
through `i8` and back: the composite is addition mod 2^8). -/
def wadd8 (a b : Nat) : Nat := (a + b) % 256

/-- u8 wrapping subtraction mod 2^8 (fog-mask decrement through `i8`). -/
def wsub8 (a b : Nat) : Nat := (a + (256 - b % 256)) % 256

/-- `(a as f32 * 0.8).round() as u16` for `a < 2^16`.  The exact value
`4a/5` has denominator 5, so it is never a half-integer and is at distance
at least 1/10 from every half-integer; the f32 evaluation error is below
0.004 on this range, so rounding the f32 product to the nearest integer
agrees with rounding the exact product, which is `⌊(8a + 5) / 10⌋`. -/
def round08 (a : Nat) : Nat := (8 * a + 5) / 10

/-- `MAX_TURNS` from `src/constants.rs` (release value; the debug build
uses 25, which none of the verified properties depend on). -/
def MAX_TURNS : Nat := 125

/-- `TileType` from `src/state.rs`. -/
inductive TileType where
  | VisibleEmpty
  | AssumedEmpty
  | OwnedTile
  | OwnedGeneral
  | OwnedCity
  | Enemy
  | EnemyCity
  | EnemyGeneral
  | VisibleNeutralCity
  | HiddenNeutralCity
  | VisibleMountain
  | HiddenObstacle
  | Padding
deriving DecidableEq

namespace TileType

/-- `TileType::is_visible`. -/
def isVisible : TileType → Bool
  | VisibleEmpty | OwnedTile | OwnedGeneral | OwnedCity
  | Enemy | EnemyCity | EnemyGeneral
  | VisibleNeutralCity | VisibleMountain => true
  | _ => false

/-- `TileType::reveal`. -/
def reveal : TileType → TileType
  | AssumedEmpty => VisibleEmpty
  | HiddenNeutralCity => VisibleNeutralCity
  | HiddenObstacle => VisibleMountain
  | t => t

/-- `TileType::hide`. -/
def hide : TileType → TileType
  | VisibleEmpty => AssumedEmpty
  | VisibleNeutralCity => HiddenNeutralCity
  | VisibleMountain => HiddenObstacle
  | t => t

/-- `TileType::own`. -/
def own : TileType → TileType
  | VisibleEmpty => OwnedTile
  | AssumedEmpty => OwnedTile
  | Enemy => OwnedTile
  | EnemyCity => OwnedCity
  | EnemyGeneral => OwnedCity
  | VisibleNeutralCity => OwnedCity
  | HiddenNeutralCity => OwnedCity
  | VisibleMountain => OwnedTile
  | HiddenObstacle => OwnedTile
  | t => t

/-- `TileType::lose`. -/
def lose : TileType → TileType
  | OwnedTile => Enemy
  | OwnedCity => EnemyCity
  | OwnedGeneral => EnemyCity
  | VisibleEmpty => Enemy
  | AssumedEmpty => Enemy
  | VisibleNeutralCity => EnemyCity
  | HiddenNeutralCity => EnemyCity
  | t => t

/-- `TileType::occupiable`: everything that is not a mountain or obstacle
(or padding). -/
def occupiable : TileType → Bool
  | VisibleEmpty | AssumedEmpty | OwnedTile | OwnedGeneral | OwnedCity
  | Enemy | EnemyCity | EnemyGeneral
  | VisibleNeutralCity | HiddenNeutralCity => true
  | _ => false

/-- `TileType::is_owned`. -/
def isOwned : TileType → Bool
  | OwnedTile | OwnedGeneral | OwnedCity => true
  | _ => false

/-- `TileType::is_enemy`. -/
def isEnemy : TileType → Bool
  | Enemy | EnemyCity | EnemyGeneral => true
  | _ => false

end TileType

/-- `Location`: an in-bounds board coordinate (the source's
`(usize, usize)`, where out-of-bounds coordinates panic on use). -/
abbrev Location (n : Nat) := Fin n × Fin n

/-- `Tile` from `src/state.rs` (`population: u16`, `owner: Option<PlayerId>`). -/
structure Tile (P : Nat) where
  tileType : TileType
  population : Nat
  owner : Option (Fin P)
deriving DecidableEq

/-- `MoveCommand` (`from`/`to` are renamed: `from` is a Lean keyword). -/
structure MoveCommand (n : Nat) where
  fromLoc : Location n
  toLoc : Location n
  half : Bool
deriving DecidableEq

/-- `GeneralLocation` from `src/state.rs`. -/
inductive GeneralLocation (n : Nat) where
  | Known (l : Location n)
  | Dead (l : Location n)
  | Unknown
deriving DecidableEq

/-- `GeneralLocation::unwrap_location`; `none` models the panic on
`Unknown`. -/
def unwrapLocation : GeneralLocation n → Option (Location n)
  | .Known l => some l
  | .Dead l => some l
  | .Unknown => none

/-- `GameState<PLAYER_COUNT, W, H>` from `src/state.rs` with `W = H = n`
(the source only instantiates square boards: `GeneralsGameState =
GameState<2, 25, 25>`). -/
structure GameState (P n : Nat) where
  turn : Nat
  maxTurn : Nat
  playerId : Fin P
  tiles : Location n → Tile P
  fogMask : Location n → Nat
  lands : Fin P → Nat
  armies : Fin P → Nat
  cityCount : Fin P → Nat
  generalRevealedTo : Fin P → Bool
  generals : Fin P → GeneralLocation n

variable {P n : Nat}

instance : DecidableEq (GameState P n) := fun a b =>
  decidable_of_iff
    (a.turn = b.turn ∧ a.maxTurn = b.maxTurn ∧ a.playerId = b.playerId ∧
     a.tiles = b.tiles ∧ a.fogMask = b.fogMask ∧ a.lands = b.lands ∧
     a.armies = b.armies ∧ a.cityCount = b.cityCount ∧
     a.generalRevealedTo = b.generalRevealedTo ∧ a.generals = b.generals)
    (by cases a; cases b; simp)

namespace GameState

/-- `GameState::get_tile`. -/
def getTile (s : GameState P n) (l : Location n) : Tile P := s.tiles l

/-- `GameState::update_tile`. -/
def updateTile (s : GameState P n) (l : Location n) (t : Tile P) :
    GameState P n :=
  { s with tiles := Function.update s.tiles l t }

/-- `GameState::get_own_general` returns `unwrap_location` of the local
player's entry; `none` models the panic on `Unknown`. -/
def getOwnGeneral (s : GameState P n) : Option (Location n) :=
  unwrapLocation (s.generals s.playerId)

end GameState

/-- `manhattan_distance` from `src/utils.rs`. -/
def manhattanDistance (a b : Location n) : Nat :=
  ((a.1 : Int) - (b.1 : Int)).natAbs + ((a.2 : Int) - (b.2 : Int)).natAbs

/-- `get_neighbors` from `src/utils.rs` (order: left, right, up, down,
each bounds-checked). -/
def getNeighbors (l : Location n) : List (Location n) :=
  (if h : 0 < l.1.val then
    [(⟨l.1.val - 1, by have := l.1.isLt; omega⟩, l.2)] else [])
  ++ (if h : l.1.val + 1 < n then [(⟨l.1.val + 1, h⟩, l.2)] else [])
  ++ (if h : 0 < l.2.val then
    [(l.1, ⟨l.2.val - 1, by have := l.2.isLt; omega⟩)] else [])
  ++ (if h : l.2.val + 1 < n then [(l.1, ⟨l.2.val + 1, h⟩)] else [])

/-- All board cells in the iteration order of the source's nested
`for x in 0..W { for y in 0..H { ... } }` loops. -/
def allCells (n : Nat) : List (Location n) :=
  (List.finRange n).flatMap fun x => (List.finRange n).map fun y => (x, y)

/-- Stable insertion into a sorted list: `a` is placed before the first
element `b` with `le a b`, so elements equivalent to `a` that were already
present stay in front of it. -/
def sortInsert (le : α → α → Bool) (a : α) : List α → List α
  | [] => [a]
  | b :: l => if le a b then a :: b :: l else b :: sortInsert le a l

/-- A stable sort with comparator `le` ("comes before or with"), modelling
Rust's stable `sort_by`/`sort_by_key`: a stable sort's output is uniquely
determined by the comparator, so any stable implementation is a faithful
model; this one is structurally recursive so that it evaluates inside the
kernel. -/
def stableSort (le : α → α → Bool) : List α → List α
  | [] => []
  | a :: l => sortInsert le a (stableSort le l)

namespace GameState

/-- The 3×3 visibility window of `change_tile_ownership`
(`location.0.saturating_sub(1)..=location.0 + 1` for each coordinate,
filtered to the board): exactly the in-bounds cells whose coordinates
differ from `location` by at most 1, enumerated in the loop's row-major
order. -/
def fogWindow (c : Location n) : List (Location n) :=
  (allCells n).filter fun d =>
    ((d.1 : Int) - (c.1 : Int)).natAbs ≤ 1 ∧
    ((d.2 : Int) - (c.2 : Int)).natAbs ≤ 1

/-- One iteration of `change_tile_ownership`'s fog loop at cell `c`:
adjust the mask by ±1 (through the `i8` cast, i.e. mod 2^8) and hide or
reveal the cell's tile type according to whether the new mask is zero. -/
def fogCell (s : GameState P n) (c : Location n) (lost : Bool) :
    GameState P n :=
  let newMask := if lost then wsub8 (s.fogMask c) 1 else wadd8 (s.fogMask c) 1
  let s1 := { s with fogMask := Function.update s.fogMask c newMask }
  let t := s1.getTile c
  if newMask = 0 then s1.updateTile c ⟨t.tileType.hide, t.population, t.owner⟩
  else s1.updateTile c ⟨t.tileType.reveal, t.population, t.owner⟩

/-- The effect of one `fogCell` visit on the visited cell's own tile
(and nothing else): used to describe fold results. -/
def fogCellTile (lost : Bool) (mask : Nat) (t : Tile P) : Tile P :=
  let newMask := if lost then wsub8 mask 1 else wadd8 mask 1
  if newMask = 0 then ⟨t.tileType.hide, t.population, t.owner⟩
  else ⟨t.tileType.reveal, t.population, t.owner⟩

/-- The tile-rewrite and fog-window phase of `change_tile_ownership`
(everything after the `lands` bookkeeping), applied to the state `s2` that
already carries the updated `lands`; `selfId` is the receiver's
`player_id`. -/
def ownershipTileUpdate (s2 : GameState P n) (location : Location n)
    (newOwner : Fin P) (newPopulation : Nat) (selfId : Fin P) :
    GameState P n :=
  let previousTile := s2.getTile location
  let playerLost : Bool := decide (previousTile.owner = some selfId)
  let playerWon : Bool := decide (newOwner = selfId)
  let newType :=
    if playerWon then previousTile.tileType.own
    else previousTile.tileType.lose
  let s3 := s2.updateTile location ⟨newType, newPopulation, some newOwner⟩
  if playerLost || playerWon then
    (fogWindow location).foldl (fun st c => fogCell st c playerLost) s3
  else s3

/-- `GameState::change_tile_ownership`; `none` models the
"Changing ownership to the same player" panic. -/
def changeTileOwnership (s : GameState P n) (location : Location n)
    (newOwner : Fin P) (newPopulation : Nat) : Option (GameState P n) :=
  if (s.getTile location).owner = some newOwner then none
  else
    let s1 := match (s.getTile location).owner with
      | some prevOwner =>
        { s with
          lands := Function.update s.lands prevOwner
            (wsub (s.lands prevOwner) 1) }
      | none => s
    let s2 := { s1 with
      lands := Function.update s1.lands newOwner
        (wadd (s1.lands newOwner) 1) }
    some (ownershipTileUpdate s2 location newOwner newPopulation s.playerId)

/-- `GameState::change_tile_population`.  The source computes
`(population as i16).wrapping_add(pop_delta) as u16`, i.e. the sum mod
2^16, and panics ("Population overflow") when that wrapped value exceeds
65520; `none` models the panic.  Every `pop_delta` the source passes is an
`i16` cast whose value is congruent mod 2^16 to the `Int` passed here. -/
def changeTilePopulation (s : GameState P n) (location : Location n)
    (popDelta : Int) : Option (GameState P n) :=
  let previousTile := s.getTile location
  let newPop := (((previousTile.population : Int) + popDelta) % 65536).toNat
  if 65520 < newPop then none
  else some (s.updateTile location
    ⟨previousTile.tileType, newPop, previousTile.owner⟩)

end GameState

/-- The moving quantity of `process_command`:
`population - 1` (u16, wrapping), halved by integer division when
`cmd.half`. -/
def moveQuantity (t : Tile P) (half : Bool) : Nat :=
  let base := wsub t.population 1
  if half then base / 2 else base

namespace GameState

/-- Step 1 of `process_command`: when `imagine_army` holds and the source
cell is unowned, manufacture a phantom army there of size
`(armies[player_id] as f32 * 0.8).round()` owned by the acting player. -/
def phantomize (s : GameState P n) (cmd : MoveCommand n) (p : Fin P)
    (imagineArmy : Bool) : GameState P n :=
  if imagineArmy ∧ (s.getTile cmd.fromLoc).owner = none then
    s.updateTile cmd.fromLoc ⟨TileType.Enemy, round08 (s.armies p), some p⟩
  else s

/-- The attack branch of `process_command` (destination not owned by the
acting player), returning the updated state and the `evaporated` amount.
`none` models the panics reachable here (`unwrap` of a general tile with
no owner, `unwrap_location` of an unknown own general, population
overflow). -/
def attackResolve (sFrom : GameState P n) (toLoc : Location n) (p : Fin P)
    (toTile : Tile P) (populationToMove : Nat) :
    Option (GameState P n × Nat) :=
  if toTile.population < populationToMove then
    match sFrom.changeTileOwnership toLoc p
        (wsub populationToMove toTile.population) with
    | none => none
    | some sOwn =>
      match (if toTile.tileType = TileType.EnemyGeneral ∨
                toTile.tileType = TileType.OwnedGeneral then
               match toTile.owner with
               | some q => some { sOwn with
                   generals := Function.update sOwn.generals q
                     (GeneralLocation.Dead toLoc) }
               | none => none
             else some sOwn) with
      | none => none
      | some sGen =>
        match sGen.getOwnGeneral with
        | none => none
        | some ownGeneral =>
          if p ≠ sGen.playerId ∧ manhattanDistance toLoc ownGeneral ≤ 1 then
            some ({ sGen with
                generalRevealedTo :=
                  Function.update sGen.generalRevealedTo p true },
              toTile.population)
          else some (sGen, toTile.population)
  else
    match sFrom.changeTilePopulation toLoc (-(populationToMove : Int)) with
    | none => none
    | some sDef => some (sDef, populationToMove)

/-- `process_command` after the phantom-army step: no-op checks, then move
resolution. -/
def resolveCommand (s1 : GameState P n) (cmd : MoveCommand n) (p : Fin P) :
    Option (GameState P n) :=
  let fromTile := s1.getTile cmd.fromLoc
  let toTile := s1.getTile cmd.toLoc
  if fromTile = toTile then some s1
  else if s1.turn = s1.maxTurn then some s1
  else
    let populationToMove := moveQuantity fromTile cmd.half
    match s1.changeTilePopulation cmd.fromLoc (-(populationToMove : Int)) with
    | none => none
    | some sFrom =>
      if toTile.owner = some p then
        sFrom.changeTilePopulation cmd.toLoc (populationToMove : Int)
      else
        match attackResolve sFrom cmd.toLoc p toTile populationToMove with
        | none => none
        | some (sAtk, evaporated) =>
          let sArm := { sAtk with
            armies := Function.update sAtk.armies p
              (wsub (sAtk.armies p) evaporated) }
          some (match toTile.owner with
            | some owner => { sArm with
                armies := Function.update sArm.armies owner
                  (wsub (sArm.armies owner) evaporated) }
            | none => sArm)

/-- `GameState::process_command`. -/
def processCommand (s : GameState P n) (cmd : MoveCommand n) (p : Fin P)
    (imagineArmy : Bool) : Option (GameState P n) :=
  resolveCommand (s.phantomize cmd p imagineArmy) cmd p

/-- The `evaporated` amount `process_command` computes in its attack
branch (on the post-phantom state `s1`): the destination's old population
on capture, the moving quantity otherwise. -/
def evaporatedOf (s1 : GameState P n) (cmd : MoveCommand n) : Nat :=
  let fromTile := s1.getTile cmd.fromLoc
  let toTile := s1.getTile cmd.toLoc
  let populationToMove := moveQuantity fromTile cmd.half
  if toTile.population < populationToMove then toTile.population
  else populationToMove

/-- The growth condition of `tick`'s per-tile loop. -/
def tileEligible (turn : Nat) (t : Tile P) : Prop :=
  t.owner.isSome ∧
    (((t.tileType = TileType.OwnedCity ∨ t.tileType = TileType.OwnedGeneral ∨
       t.tileType = TileType.EnemyCity ∨ t.tileType = TileType.EnemyGeneral) ∧
      turn % 2 = 0) ∨ turn % 50 = 0)

instance (turn : Nat) (t : Tile P) : Decidable (tileEligible turn t) := by
  unfold tileEligible; infer_instance

/-- One iteration of `tick`'s growth loop at cell `c`. -/
def growStep (s : GameState P n) (c : Location n) : Option (GameState P n) :=
  if tileEligible s.turn (s.getTile c) then s.changeTilePopulation c 1
  else some s

/-- The armies-growth tail of `tick`: `+city_count` on ordinary even
turns, `+lands` on the 50-turn cycle. -/
def armiesPhase (s : GameState P n) : GameState P n :=
  if s.turn % 2 = 0 ∧ s.turn % 50 ≠ 0 then
    { s with armies := fun p => wadd (s.armies p) (s.cityCount p) }
  else if s.turn % 50 = 0 then
    { s with armies := fun p => wadd (s.armies p) (s.lands p) }
  else s

/-- `GameState::tick`: increment the turn, apply the command for the local
player, grow tile populations, grow army totals. -/
def tick (s : GameState P n) (cmd : MoveCommand n) : Option (GameState P n) :=
  let s1 : GameState P n := { s with turn := s.turn + 1 }
  match s1.processCommand cmd s1.playerId false with
  | none => none
  | some s2 =>
    match (allCells n).foldlM growStep s2 with
    | none => none
    | some s3 => some (armiesPhase s3)

/-- The productive scan of `get_possible_commands`: for every tile owned
by the local player with population > 1, a keyed command to each
occupiable neighbor passing the pruning condition; the key is
`population(from) + population(to)` (u16). -/
def productiveScan (s : GameState P n) : List (Nat × MoveCommand n) :=
  (allCells n).flatMap fun c =>
    let tile := s.getTile c
    if tile.owner = some s.playerId ∧ 1 < tile.population then
      (getNeighbors c).filterMap fun c2 =>
        let tile2 := s.getTile c2
        if tile2.tileType.occupiable ∧
            (wadd tile2.population 1 < tile.population ∨
             tile2.owner = tile.owner ∨ 5 < tile.population) then
          some (wadd tile.population tile2.population,
            MoveCommand.mk c c2 false)
        else none
    else []

/-- `GameState::get_possible_commands`: the productive scan, with a single
synthetic general-to-general no-op when it is empty, sorted descending by
key (Rust's stable `sort_by` with comparator `b.0.cmp(&a.0)`), keys
stripped.  `none` models the `unwrap_location` panic when the fallback is
needed while the own general is unknown. -/
def getPossibleCommands (s : GameState P n) : Option (List (MoveCommand n)) :=
  let commands := productiveScan s
  let withFallback : Option (List (Nat × MoveCommand n)) :=
    if commands.isEmpty then
      match s.getOwnGeneral with
      | none => none
      | some g => some [(1, MoveCommand.mk g g false)]
    else some commands
  match withFallback with
  | none => none
  | some cmds =>
    some ((stableSort (fun a b => Nat.ble b.1 a.1) cmds).map Prod.snd)

/-- `GameState::new`: fresh state with the local player's general
location recorded and revealed.  The source's call to
`change_tile_ownership` takes `&self` and returns a fresh `Self` whose
value the statement **discards**, so neither `lands` nor the tile's
owner/population change; only the following in-place
`tile_type = OwnedGeneral` assignment (which keeps the tile's population
and owner) survives.  The discarded call cannot panic: the fresh tile is
unowned. -/
def new (pid : Fin P) (ownGeneral : Location n) : GameState P n :=
  let base : GameState P n :=
    { turn := 0
      maxTurn := MAX_TURNS
      playerId := pid
      tiles := fun _ => ⟨TileType.AssumedEmpty, 0, none⟩
      fogMask := fun _ => 0
      lands := fun _ => 0
      armies := fun _ => 1
      cityCount := fun _ => 1
      generalRevealedTo := fun _ => false
      generals := fun _ => GeneralLocation.Unknown }
  let base := { base with
    generals := Function.update base.generals pid
      (GeneralLocation.Known ownGeneral)
    generalRevealedTo := Function.update base.generalRevealedTo pid true }
  let t := base.getTile ownGeneral
  base.updateTile ownGeneral
    ⟨TileType.OwnedGeneral, t.population, t.owner⟩

end GameState

/-! ## Opponent inference (`src/enemy.rs`)

The source writes these functions against `GeneralsGameState =
GameState<2, 25, 25>` and hardcodes `25` as the grid dimension; the
embedding keeps the grid size as the parameter `n` (the hardcoded 25s are
exactly the dimensions of the one instantiation). -/

/-- `EnemyMove` from `src/enemy.rs`. -/
inductive EnemyMove (n : Nat) where
  | Noop
  | ExpandLand
  | Invasion (fromLoc toLoc : Location n)
deriving DecidableEq

/-- `EnemyMove::apply_on_state`.  `ExpandLand` is lowered directly as
`lands[player_id] += 1`, bypassing `process_command`; `Invasion` calls
`process_command` with `imagine_army = true` and unwraps (the `Result` is
always `Ok`; `none` here models the panics inside `process_command`). -/
def EnemyMove.applyOnState (m : EnemyMove n) (s : GameState P n)
    (playerId : Fin P) : Option (GameState P n) :=
  match m with
  | .Noop => some s
  | .ExpandLand => some { s with
      lands := Function.update s.lands playerId
        (wadd (s.lands playerId) 1) }
  | .Invasion f t => s.processCommand (MoveCommand.mk f t false) playerId true

/-- The index-selection loop of `possible_enemy_moves` that finds the
first index of strictly maximal distance from the own general (starting
from index 0 and distance 0); the non-`Invasion` arm is unreachable
(the list holds only `Invasion` values; the source panics there). -/
def maxDistIdx (l : List (EnemyMove n)) (g : Location n) : Nat :=
  (l.enum.foldl (fun st im =>
    let d := match im.2 with
      | .Invasion _ t => manhattanDistance t g
      | _ => 0
    if st.2 < d then (im.1, d) else st) (0, 0)).1

/-- `possible_enemy_moves` from `src/enemy.rs`.  The random choice of a
fogged staging cell (`possible_invade_spots.choose(&mut thread_rng())`) is
modelled by the oracle `pick`; `none` models the `unwrap_location` panic
on an unknown own general inside the invasion loop. -/
def possibleEnemyMoves (pick : List (Location n) → Option (Location n))
    (s : GameState P n) (playerId : Fin P) :
    Option (List (EnemyMove n)) :=
  let moves := [EnemyMove.Noop] ++
    (if s.lands playerId < s.armies playerId then [EnemyMove.ExpandLand]
     else [])
  let fictionalArmySize : Option Nat :=
    if wadd (s.lands playerId) 1 < s.armies playerId then
      let sz := round08 (wsub (s.armies playerId) (s.lands playerId))
      if 10 < sz then some sz else none
    else none
  if s.turn ≤ 50 then some moves
  else
    let invaderArmies : List (Nat × Location n) :=
      (allCells n).filterMap fun c =>
        let tile := s.getTile c
        if tile.tileType.isEnemy then
          (if 3 ≤ tile.population then some (tile.population, c) else none)
        else none
    let possibleInvadeSpots : List (Location n) :=
      (allCells n).filterMap fun c =>
        let tile := s.getTile c
        if ¬ tile.tileType.isEnemy ∧ ¬ tile.tileType.isOwned ∧
            tile.tileType.occupiable ∧ 0 < s.fogMask c then some c
        else none
    let sorted :=
      (stableSort (fun a b => Nat.ble a.1 b.1) invaderArmies).reverse
    let withFictional :=
      match fictionalArmySize with
      | some fs =>
        let headSmall : Bool := match sorted with
          | [] => true
          | (_, c0) :: _ => decide ((s.getTile c0).population < fs / 2)
        if headSmall then
          match pick possibleInvadeSpots with
          | some spot => (fs, spot) :: sorted
          | none => sorted
        else sorted
      | none => sorted
    let top := withFictional.take 1
    top.foldlM (fun acc entry =>
      match s.getOwnGeneral with
      | none => none
      | some g =>
        let inMovements := (getNeighbors entry.2).filterMap fun nb =>
          if (s.getTile nb).tileType.occupiable then
            some (EnemyMove.Invasion entry.2 nb)
          else none
        let inMovements2 :=
          if inMovements.isEmpty then inMovements
          else inMovements.eraseIdx (maxDistIdx inMovements g)
        some (acc ++ inMovements2)) moves

/-! ## Search-engine glue (`src/mcts.rs`) -/

/-- `CombinedMoveCommand` from `src/mcts.rs`. -/
inductive CombinedMoveCommand (n : Nat) where
  | Friendly (m : MoveCommand n)
  | Enemy (m : EnemyMove n)
deriving DecidableEq

/-- `GameStateWrapper` from `src/mcts.rs`: a state plus the search turn. -/
structure GameStateWrapper (P n : Nat) where
  state : GameState P n
  turn : Fin P

/-- `GameStateWrapper::legals_moves`: the local player's commands mapped to
`Friendly` when the search turn is the local player, otherwise the
inferred opponent moves mapped to `Enemy`. -/
def legalsMoves (pick : List (Location n) → Option (Location n))
    (w : GameStateWrapper P n) : Option (List (CombinedMoveCommand n)) :=
  if w.turn = w.state.playerId then
    match w.state.getPossibleCommands with
    | none => none
    | some l => some (l.map CombinedMoveCommand.Friendly)
  else
    match possibleEnemyMoves pick w.state w.turn with
    | none => none
    | some l => some (l.map CombinedMoveCommand.Enemy)

/-- The wrapped root built by `MctsTree::new`: the given state with the
search turn set to the state's local player id. -/
def mctsRootWrapper (s : GameState P n) : GameStateWrapper P n :=
  ⟨s, s.playerId⟩

/-- Modelled from the spec: the oxymcts crate's `LazyMcts` tree (node
storage, expansion bookkeeping and `best_move`) is an external dependency
not present in `src/`.  Per spec §4.3, every root child is created by
popping one move from the root's unexplored-move list, which is
initialized to the root state's legal moves (`SearchNode.unexplored-moves`
/ "Expansion"), so each root child carries a member of the root's legal
moves together with its visit count and reward sum (rewards, `f64` in the
source, are modelled as `Rat`). -/
structure MctsTree (P n : Nat) where
  pick : List (Location n) → Option (Location n)
  rootState : GameStateWrapper P n
  rootMoves : List (CombinedMoveCommand n)
  rootMoves_eq : legalsMoves pick rootState = some rootMoves
  children : List (CombinedMoveCommand n × Nat × Rat)
  children_mem : ∀ c ∈ children, c.1 ∈ rootMoves

/-- Mean reward of a root child (`reward-sum / visit-count`). -/
def childMean (c : CombinedMoveCommand n × Nat × Rat) : Rat :=
  c.2.2 / (c.2.1 : Rat)

/-- Modelled from the spec: `best_move` ("choose the root's child
maximizing mean reward"), returning the move of a child with maximal mean
reward (`none` on a childless root). -/
def bestMove (t : MctsTree P n) : Option (CombinedMoveCommand n) :=
  match t.children with
  | [] => none
  | c :: cs =>
    some ((cs.foldl (fun best x =>
      if childMean best < childMean x then x else best) c).1)

/-- `MctsTree::get_best_move` after training: match on `best_move`,
returning the `MoveCommand` of a `Friendly` result; `none` models the
fatal "Best move is enemy move??" panic (and the childless case). -/
def getBestMove (t : MctsTree P n) : Option (MoveCommand n) :=
  match bestMove t with
  | some (.Friendly m) => some m
  | some (.Enemy _) => none
  | none => none

/-! ## Concrete states and claim-side definitions -/

/-- The phantom-army size as claim C1 states it:
`round(0.8 × (armies[acting_player] − lands[acting_player]))` (written,
like `round08`, in exact integer arithmetic as `⌊(8·d + 5) / 10⌋`). -/
def claimedPhantomSize (armies lands : Nat) : Nat :=
  (8 * (armies - lands) + 5) / 10

/-- A concrete 2×2 two-player state: acting player 1 has a tracked army
total of 10 and 5 tracked lands, so the claimed phantom size
round(0.8 × (10 − 5)) = 4 differs from the source's
round(0.8 × 10) = 8. -/
def stateC1 : GameState 2 2 where
  turn := 0
  maxTurn := 125
  playerId := 0
  tiles := fun _ => ⟨TileType.AssumedEmpty, 0, none⟩
  fogMask := fun _ => 0
  lands := fun p => if p = 1 then 5 else 1
  armies := fun p => if p = 1 then 10 else 1
  cityCount := fun _ => 1
  generalRevealedTo := fun _ => false
  generals := fun p =>
    if p = 0 then GeneralLocation.Known (0, 0) else GeneralLocation.Unknown

/-- A concrete 2×2 state whose cell (0,0) has population 3, for the
underflow counterexample to C4. -/
def stateC4 : GameState 2 2 where
  turn := 0
  maxTurn := 125
  playerId := 0
  tiles := fun c =>
    if c = ((0 : Fin 2), (0 : Fin 2)) then ⟨TileType.OwnedTile, 3, some 0⟩
    else ⟨TileType.AssumedEmpty, 0, none⟩
  fogMask := fun _ => 0
  lands := fun p => if p = 0 then 1 else 0
  armies := fun _ => 1
  cityCount := fun _ => 1
  generalRevealedTo := fun _ => false
  generals := fun p =>
    if p = 0 then GeneralLocation.Known (0, 0) else GeneralLocation.Unknown

/-- A concrete `GeneralsGameState`-shaped state (2 players, 25×25 board)
at turn 0 where opponent 1 has army 1 > land 0. -/
def stateC9 : GameState 2 25 where
  turn := 0
  maxTurn := 125
  playerId := 0
  tiles := fun _ => ⟨TileType.AssumedEmpty, 0, none⟩
  fogMask := fun _ => 0
  lands := fun p => if p = 0 then 1 else 0
  armies := fun _ => 1
  cityCount := fun _ => 1
  generalRevealedTo := fun _ => false
  generals := fun p =>
    if p = 0 then GeneralLocation.Known (12, 12) else GeneralLocation.Unknown

/-- A concrete 2×2 state for the conservation counterexample: player 0
(the local player) attacks the enemy tile at (0,1) (population 1) from
(0,0) (population 5). -/
def stateC2 : GameState 2 2 where
  turn := 0
  maxTurn := 125
  playerId := 0
  tiles := fun c =>
    if c = ((0 : Fin 2), (0 : Fin 2)) then ⟨TileType.OwnedTile, 5, some 0⟩
    else if c = ((0 : Fin 2), (1 : Fin 2)) then ⟨TileType.Enemy, 1, some 1⟩
    else ⟨TileType.AssumedEmpty, 0, none⟩
  fogMask := fun _ => 1
  lands := fun _ => 1
  armies := fun _ => 10
  cityCount := fun _ => 1
  generalRevealedTo := fun _ => false
  generals := fun p =>
    if p = 0 then GeneralLocation.Known (0, 0)
    else GeneralLocation.Known (1, 1)

/-- A concrete 2×2 state realizing claim C6's scenario: a neutral city of
population 40 at (0,1) attacked from the adjacent (0,0) with a moving
quantity of 50. -/
def stateC6 : GameState 2 2 where
  turn := 0
  maxTurn := 125
  playerId := 0
  tiles := fun c =>
    if c = ((0 : Fin 2), (0 : Fin 2)) then ⟨TileType.OwnedTile, 51, some 0⟩
    else if c = ((0 : Fin 2), (1 : Fin 2)) then
      ⟨TileType.VisibleNeutralCity, 40, none⟩
    else ⟨TileType.AssumedEmpty, 0, none⟩
  fogMask := fun _ => 1
  lands := fun _ => 1
  armies := fun _ => 60
  cityCount := fun _ => 1
  generalRevealedTo := fun _ => false
  generals := fun p =>
    if p = 0 then GeneralLocation.Known (0, 0) else GeneralLocation.Unknown

/-- A pathological 2×2 state for the C8 counterexample: the recorded own
general sits on a visible mountain and no owned tile has population > 1,
so the synthetic no-op command targets a non-occupiable tile. -/
def stateC8 : GameState 2 2 where
  turn := 0
  maxTurn := 125
  playerId := 0
  tiles := fun c =>
    if c = ((0 : Fin 2), (0 : Fin 2)) then ⟨TileType.VisibleMountain, 0, none⟩
    else ⟨TileType.AssumedEmpty, 0, none⟩
  fogMask := fun _ => 0
  lands := fun _ => 0
  armies := fun _ => 1
  cityCount := fun _ => 1
  generalRevealedTo := fun _ => false
  generals := fun p =>
    if p = 0 then GeneralLocation.Known (0, 0) else GeneralLocation.Unknown

/-- A concrete 2×2 state at turn 49 (so `tick` lands on turn 50): the
local player owns the general at (0,0) with population 1; the cell (1,1)
is an unowned visible-empty tile of population 7. -/
def stateC5 : GameState 2 2 where
  turn := 49
  maxTurn := 125
  playerId := 0
  tiles := fun c =>
    if c = ((0 : Fin 2), (0 : Fin 2)) then ⟨TileType.OwnedGeneral, 1, some 0⟩
    else if c = ((1 : Fin 2), (1 : Fin 2)) then ⟨TileType.VisibleEmpty, 7, none⟩
    else ⟨TileType.AssumedEmpty, 0, none⟩
  fogMask := fun _ => 1
  lands := fun p => if p = 0 then 1 else 0
  armies := fun _ => 1
  cityCount := fun _ => 1
  generalRevealedTo := fun _ => false
  generals := fun p =>
    if p = 0 then GeneralLocation.Known (0, 0) else GeneralLocation.Unknown

/-- The number of board tiles owned by player `p` (the counting quantity
of claim C3, per player). -/
def ownedCountFor (s : GameState P n) (p : Fin P) : Nat :=
  (allCells n).countP fun c => decide ((s.getTile c).owner = some p)

/-- The number of board tiles whose owner is `Some _` (the counting
quantity of claim C3). -/
def ownedCount (s : GameState P n) : Nat :=
  (allCells n).countP fun c => (s.getTile c).owner.isSome

/-- The per-player lands-accounting invariant: each player's `lands` entry
equals the number of tiles they own (this implies the aggregate
`sum(lands) = count of owned tiles`). -/
def landsAccurate (s : GameState P n) : Prop :=
  ∀ p, s.lands p = ownedCountFor s p

/-- States reachable by the model's core operations with real commands
only: `GameState::new` and `tick` steps (`process_command` with
`is_inferred = false`). -/
inductive ReachableCore : GameState P n → Prop
  | new (pid : Fin P) (g : Location n) : ReachableCore (GameState.new pid g)
  | tickStep {s s' : GameState P n} (cmd : MoveCommand n) :
      ReachableCore s → GameState.tick s cmd = some s' → ReachableCore s'

/-- All states reachable by the model's own operations, as claim C3
quantifies: `GameState::new`, `tick` with a command, and
`EnemyMove::apply_on_state` during search. -/
inductive Reachable : GameState P n → Prop
  | new (pid : Fin P) (g : Location n) : Reachable (GameState.new pid g)
  | tickStep {s s' : GameState P n} (cmd : MoveCommand n) :
      Reachable s → GameState.tick s cmd = some s' → Reachable s'
  | enemyStep {s s' : GameState P n} (m : EnemyMove n) (p : Fin P) :
      Reachable s → m.applyOnState s p = some s' → Reachable s'

/-- A concrete one-child search tree over `stateC1` (root at the local
player's turn, the single child holding the synthetic no-op with one visit
and reward 1). -/
def treeC10 : MctsTree 2 2 where
  pick := fun _ => none
  rootState := mctsRootWrapper stateC1
  rootMoves := [CombinedMoveCommand.Friendly (MoveCommand.mk (0, 0) (0, 0) false)]
  rootMoves_eq := by decide
  children :=
    [(CombinedMoveCommand.Friendly (MoveCommand.mk (0, 0) (0, 0) false), 1, 1)]
  children_mem := by decide

/-! ## Basic lemmas about the state operations -/

namespace GameState

@[simp] lemma getTile_updateTile_self (s : GameState P n) (l : Location n)
    (t : Tile P) : (s.updateTile l t).getTile l = t := by
  simp [getTile, updateTile]

lemma getTile_updateTile_ne (s : GameState P n) {l l' : Location n}
    (t : Tile P) (h : l' ≠ l) : (s.updateTile l t).getTile l' = s.getTile l' := by
  simp [getTile, updateTile, Function.update_noteq h]

@[simp] lemma updateTile_turn (s : GameState P n) (l : Location n)
    (t : Tile P) : (s.updateTile l t).turn = s.turn := rfl

@[simp] lemma updateTile_maxTurn (s : GameState P n) (l : Location n)
    (t : Tile P) : (s.updateTile l t).maxTurn = s.maxTurn := rfl

@[simp] lemma updateTile_playerId (s : GameState P n) (l : Location n)
    (t : Tile P) : (s.updateTile l t).playerId = s.playerId := rfl

@[simp] lemma updateTile_armies (s : GameState P n) (l : Location n)
    (t : Tile P) : (s.updateTile l t).armies = s.armies := rfl

@[simp] lemma updateTile_lands (s : GameState P n) (l : Location n)
    (t : Tile P) : (s.updateTile l t).lands = s.lands := rfl

@[simp] lemma updateTile_cityCount (s : GameState P n) (l : Location n)
    (t : Tile P) : (s.updateTile l t).cityCount = s.cityCount := rfl

@[simp] lemma updateTile_generals (s : GameState P n) (l : Location n)
    (t : Tile P) : (s.updateTile l t).generals = s.generals := rfl

@[simp] lemma phantomize_turn (s : GameState P n) (cmd : MoveCommand n)
    (p : Fin P) (b : Bool) : (s.phantomize cmd p b).turn = s.turn := by
  unfold phantomize; split <;> rfl

@[simp] lemma phantomize_maxTurn (s : GameState P n) (cmd : MoveCommand n)
    (p : Fin P) (b : Bool) : (s.phantomize cmd p b).maxTurn = s.maxTurn := by
  unfold phantomize; split <;> rfl

@[simp] lemma phantomize_playerId (s : GameState P n) (cmd : MoveCommand n)
    (p : Fin P) (b : Bool) : (s.phantomize cmd p b).playerId = s.playerId := by
  unfold phantomize; split <;> rfl

@[simp] lemma phantomize_generals (s : GameState P n) (cmd : MoveCommand n)
    (p : Fin P) (b : Bool) : (s.phantomize cmd p b).generals = s.generals := by
  unfold phantomize; split <;> rfl

lemma phantomize_false (s : GameState P n) (cmd : MoveCommand n)
    (p : Fin P) : s.phantomize cmd p false = s := by
  unfold phantomize
  rw [if_neg]
  rintro ⟨h, -⟩
  exact Bool.false_ne_true h

end GameState

lemma wsub_small {a b : Nat} (h1 : b ≤ a) (h2 : a < 65536) :
    wsub a b = a - b := by
  unfold wsub; omega

lemma wadd_small {a b : Nat} (h : a + b < 65536) : wadd a b = a + b := by
  unfold wadd; omega

lemma sortInsert_perm (le : α → α → Bool) (a : α) :
    ∀ l : List α, (sortInsert le a l).Perm (a :: l)
  | [] => List.Perm.refl _
  | b :: l => by
    unfold sortInsert
    split
    · exact List.Perm.refl _
    · exact ((sortInsert_perm le a l).cons b).trans (List.Perm.swap a b l)

lemma stableSort_perm (le : α → α → Bool) :
    ∀ l : List α, (stableSort le l).Perm l
  | [] => List.Perm.refl _
  | a :: l => by
    unfold stableSort
    exact (sortInsert_perm le a (stableSort le l)).trans
      ((stableSort_perm le l).cons a)

lemma TileType.reveal_own (t : TileType) : t.own.reveal = t.own := by
  cases t <;> rfl

lemma mem_allCells (c : Location n) : c ∈ allCells n := by
  unfold allCells
  rw [List.mem_flatMap]
  exact ⟨c.1, List.mem_finRange _,
    List.mem_map.mpr ⟨c.2, List.mem_finRange _, rfl⟩⟩

lemma allCells_nodup : (allCells n).Nodup :=
  List.Nodup.product (List.nodup_finRange n) (List.nodup_finRange n)

namespace GameState

lemma fogWindow_nodup (c : Location n) : (fogWindow c).Nodup :=
  List.Nodup.filter _ allCells_nodup

lemma self_mem_fogWindow (c : Location n) : c ∈ fogWindow c := by
  unfold fogWindow
  rw [List.mem_filter]
  refine ⟨mem_allCells c, by simp⟩

lemma changeTilePopulation_eq_some (s : GameState P n) (loc : Location n)
    (d : Int) (h0 : 0 ≤ ((s.getTile loc).population : Int) + d)
    (h1 : ((s.getTile loc).population : Int) + d ≤ 65520) :
    s.changeTilePopulation loc d
      = some (s.updateTile loc
          ⟨(s.getTile loc).tileType,
           (((s.getTile loc).population : Int) + d).toNat,
           (s.getTile loc).owner⟩) := by
  have hdef : s.changeTilePopulation loc d
      = if 65520 < ((((s.getTile loc).population : Int) + d) % 65536).toNat
        then none
        else some (s.updateTile loc
          ⟨(s.getTile loc).tileType,
           ((((s.getTile loc).population : Int) + d) % 65536).toNat,
           (s.getTile loc).owner⟩) := rfl
  rw [hdef, if_neg (by omega)]
  have he : ((((s.getTile loc).population : Int) + d) % 65536).toNat
      = (((s.getTile loc).population : Int) + d).toNat := by omega
  rw [he]

/-- `fogCell` factored as a fog-mask write plus a single tile rewrite. -/
lemma fogCell_eq (s : GameState P n) (c : Location n) (lost : Bool) :
    fogCell s c lost
      = ({ s with
          fogMask := Function.update s.fogMask c
            (if lost then wsub8 (s.fogMask c) 1
             else wadd8 (s.fogMask c) 1) }).updateTile c
          (fogCellTile lost (s.fogMask c) (s.getTile c)) := by
  unfold fogCell fogCellTile
  dsimp only
  split <;> split <;> rfl

lemma fogCellTile_owner (lost : Bool) (mask : Nat) (t : Tile P) :
    (fogCellTile lost mask t).owner = t.owner := by
  unfold fogCellTile
  dsimp only
  split <;> split <;> rfl

lemma fogCellTile_population (lost : Bool) (mask : Nat) (t : Tile P) :
    (fogCellTile lost mask t).population = t.population := by
  unfold fogCellTile
  dsimp only
  split <;> split <;> rfl

/-- `fogCell` only modifies the visited cell's tile and fog mask, and the
scalar fields not at all. -/
lemma fogCell_getTile_ne (s : GameState P n) {c c' : Location n}
    (lost : Bool) (h : c' ≠ c) :
    (fogCell s c lost).getTile c' = s.getTile c' := by
  rw [fogCell_eq, getTile_updateTile_ne _ _ h]
  rfl

lemma fogCell_fogMask_ne (s : GameState P n) {c c' : Location n}
    (lost : Bool) (h : c' ≠ c) :
    (fogCell s c lost).fogMask c' = s.fogMask c' := by
  rw [fogCell_eq]
  show (Function.update s.fogMask c _) c' = s.fogMask c'
  rw [Function.update_noteq h]

lemma fogCell_getTile_self (s : GameState P n) (c : Location n)
    (lost : Bool) :
    (fogCell s c lost).getTile c
      = fogCellTile lost (s.fogMask c) (s.getTile c) := by
  rw [fogCell_eq, getTile_updateTile_self]

lemma fogCell_owner (s : GameState P n) (c c' : Location n) (lost : Bool) :
    ((fogCell s c lost).getTile c').owner = (s.getTile c').owner := by
  by_cases h : c' = c
  · subst h
    rw [fogCell_getTile_self, fogCellTile_owner]
  · rw [fogCell_getTile_ne _ _ h]

lemma fogCell_population (s : GameState P n) (c c' : Location n)
    (lost : Bool) :
    ((fogCell s c lost).getTile c').population
      = (s.getTile c').population := by
  by_cases h : c' = c
  · subst h
    rw [fogCell_getTile_self, fogCellTile_population]
  · rw [fogCell_getTile_ne _ _ h]

lemma fogCell_scalars (s : GameState P n) (c : Location n) (lost : Bool) :
    (fogCell s c lost).turn = s.turn ∧
    (fogCell s c lost).maxTurn = s.maxTurn ∧
    (fogCell s c lost).playerId = s.playerId ∧
    (fogCell s c lost).lands = s.lands ∧
    (fogCell s c lost).armies = s.armies ∧
    (fogCell s c lost).cityCount = s.cityCount ∧
    (fogCell s c lost).generalRevealedTo = s.generalRevealedTo ∧
    (fogCell s c lost).generals = s.generals := by
  rw [fogCell_eq]
  exact ⟨rfl, rfl, rfl, rfl, rfl, rfl, rfl, rfl⟩

/-- Folding `fogCell` over any cell list preserves every tile's owner and
population and all scalar fields. -/
lemma foldl_fogCell_preserves (lost : Bool) :
    ∀ (L : List (Location n)) (s : GameState P n),
      (∀ c', ((L.foldl (fun st c => fogCell st c lost) s).getTile c').owner
          = (s.getTile c').owner) ∧
      (∀ c', ((L.foldl (fun st c => fogCell st c lost) s).getTile c').population
          = (s.getTile c').population) ∧
      (L.foldl (fun st c => fogCell st c lost) s).turn = s.turn ∧
      (L.foldl (fun st c => fogCell st c lost) s).maxTurn = s.maxTurn ∧
      (L.foldl (fun st c => fogCell st c lost) s).playerId = s.playerId ∧
      (L.foldl (fun st c => fogCell st c lost) s).lands = s.lands ∧
      (L.foldl (fun st c => fogCell st c lost) s).armies = s.armies ∧
      (L.foldl (fun st c => fogCell st c lost) s).cityCount = s.cityCount ∧
      (L.foldl (fun st c => fogCell st c lost) s).generalRevealedTo
        = s.generalRevealedTo ∧
      (L.foldl (fun st c => fogCell st c lost) s).generals = s.generals := by
  intro L
  induction L with
  | nil => intro s; exact ⟨fun _ => rfl, fun _ => rfl, rfl, rfl, rfl, rfl,
      rfl, rfl, rfl, rfl⟩
  | cons d L ih =>
    intro s
    obtain ⟨ho, hp, h1, h2, h3, h4, h5, h6, h7, h8⟩ := ih (fogCell s d lost)
    obtain ⟨g1, g2, g3, g4, g5, g6, g7, g8⟩ := fogCell_scalars s d lost
    refine ⟨?_, ?_, ?_, ?_, ?_, ?_, ?_, ?_, ?_, ?_⟩ <;>
      simp only [List.foldl_cons]
    · intro c'; rw [ho, fogCell_owner]
    · intro c'; rw [hp, fogCell_population]
    · rw [h1, g1]
    · rw [h2, g2]
    · rw [h3, g3]
    · rw [h4, g4]
    · rw [h5, g5]
    · rw [h6, g6]
    · rw [h7, g7]
    · rw [h8, g8]

/-- A fold of `fogCell` over a list not containing `c` leaves cell `c`'s
tile and fog mask untouched. -/
lemma foldl_fogCell_not_mem (lost : Bool) :
    ∀ (L : List (Location n)) (s : GameState P n) (c : Location n),
      c ∉ L →
      (L.foldl (fun st d => fogCell st d lost) s).getTile c = s.getTile c ∧
      (L.foldl (fun st d => fogCell st d lost) s).fogMask c = s.fogMask c := by
  intro L
  induction L with
  | nil => exact fun s c _ => ⟨rfl, rfl⟩
  | cons d L ih =>
    intro s c hc
    have hne : c ≠ d := fun h => hc (h ▸ List.mem_cons_self d L)
    have hnotin : c ∉ L := fun h => hc (List.mem_cons_of_mem d h)
    obtain ⟨h1, h2⟩ := ih (fogCell s d lost) c hnotin
    simp only [List.foldl_cons]
    exact ⟨h1.trans (fogCell_getTile_ne _ _ hne),
      h2.trans (fogCell_fogMask_ne _ _ hne)⟩

/-- A fold of `fogCell` over a duplicate-free list containing `c` applies
`fogCellTile` to cell `c` exactly once. -/
lemma foldl_fogCell_mem (lost : Bool) :
    ∀ (L : List (Location n)) (s : GameState P n) (c : Location n),
      L.Nodup → c ∈ L →
      (L.foldl (fun st d => fogCell st d lost) s).getTile c
        = fogCellTile lost (s.fogMask c) (s.getTile c) := by
  intro L
  induction L with
  | nil => intro s c _ hc; cases hc
  | cons d L ih =>
    intro s c hnd hc
    simp only [List.foldl_cons]
    by_cases hdc : c = d
    · subst hdc
      have hcnot : c ∉ L := (List.nodup_cons.mp hnd).1
      rw [(foldl_fogCell_not_mem lost L (fogCell s c lost) c hcnot).1,
        fogCell_getTile_self]
    · have hcL : c ∈ L := by
        rcases List.mem_cons.mp hc with h | h
        · exact absurd h hdc
        · exact h
      rw [ih (fogCell s d lost) c (List.nodup_cons.mp hnd).2 hcL,
        fogCell_fogMask_ne _ _ hdc, fogCell_getTile_ne _ _ hdc]

/-- Full characterization of the tile-rewrite phase of
`change_tile_ownership`: the updated cell gets the new population and
owner; every other cell's owner and population are untouched; every field
other than `tiles` and `fogMask` is untouched; and when the acquiring
player is the receiver's local player and the fog mask at the cell is
below 255, the new tile type is exactly `own` of the old type. -/
lemma ownershipTileUpdate_spec (s2 : GameState P n) (loc : Location n)
    (newOwner : Fin P) (newPop : Nat) (selfId : Fin P) :
    ((ownershipTileUpdate s2 loc newOwner newPop selfId).getTile loc).population
        = newPop ∧
    ((ownershipTileUpdate s2 loc newOwner newPop selfId).getTile loc).owner
        = some newOwner ∧
    (∀ c', c' ≠ loc →
      ((ownershipTileUpdate s2 loc newOwner newPop selfId).getTile c').population
          = (s2.getTile c').population ∧
      ((ownershipTileUpdate s2 loc newOwner newPop selfId).getTile c').owner
          = (s2.getTile c').owner) ∧
    (ownershipTileUpdate s2 loc newOwner newPop selfId).turn = s2.turn ∧
    (ownershipTileUpdate s2 loc newOwner newPop selfId).maxTurn = s2.maxTurn ∧
    (ownershipTileUpdate s2 loc newOwner newPop selfId).playerId
        = s2.playerId ∧
    (ownershipTileUpdate s2 loc newOwner newPop selfId).lands = s2.lands ∧
    (ownershipTileUpdate s2 loc newOwner newPop selfId).armies = s2.armies ∧
    (ownershipTileUpdate s2 loc newOwner newPop selfId).cityCount
        = s2.cityCount ∧
    (ownershipTileUpdate s2 loc newOwner newPop selfId).generalRevealedTo
        = s2.generalRevealedTo ∧
    (ownershipTileUpdate s2 loc newOwner newPop selfId).generals
        = s2.generals ∧
    (newOwner = selfId → ¬ (s2.getTile loc).owner = some selfId →
      s2.fogMask loc < 255 →
      ((ownershipTileUpdate s2 loc newOwner newPop selfId).getTile loc).tileType
          = (s2.getTile loc).tileType.own) := by
  unfold ownershipTileUpdate
  dsimp only
  by_cases hl : (s2.getTile loc).owner = some selfId
  · -- previous owner is the local player: the fog window is folded with
    -- `lost = true`
    simp only [decide_eq_true hl, Bool.true_or, if_true]
    obtain ⟨ho, hp, h1, h2, h3, h4, h5, h6, h7, h8⟩ :=
      foldl_fogCell_preserves (P := P) (n := n) true (fogWindow loc)
        (s2.updateTile loc
          ⟨if decide (newOwner = selfId) = true then
              (s2.getTile loc).tileType.own
            else (s2.getTile loc).tileType.lose, newPop, some newOwner⟩)
    refine ⟨?_, ?_, ?_, h1, h2, h3, h4, h5, h6, h7, h8, ?_⟩
    · rw [hp loc, getTile_updateTile_self]
    · rw [ho loc, getTile_updateTile_self]
    · intro c' hc'
      rw [hp c', ho c', getTile_updateTile_ne _ _ hc']
      exact ⟨rfl, rfl⟩
    · intro _ hnl _
      exact absurd hl hnl
  · by_cases hw : newOwner = selfId
    · -- the local player acquires the cell: fold with `lost = false`
      simp only [decide_eq_false hl, decide_eq_true hw, Bool.false_or,
        if_true]
      obtain ⟨ho, hp, h1, h2, h3, h4, h5, h6, h7, h8⟩ :=
        foldl_fogCell_preserves (P := P) (n := n) false (fogWindow loc)
          (s2.updateTile loc
            ⟨(s2.getTile loc).tileType.own, newPop, some newOwner⟩)
      refine ⟨?_, ?_, ?_, h1, h2, h3, h4, h5, h6, h7, h8, ?_⟩
      · rw [hp loc, getTile_updateTile_self]
      · rw [ho loc, getTile_updateTile_self]
      · intro c' hc'
        rw [hp c', ho c', getTile_updateTile_ne _ _ hc']
        exact ⟨rfl, rfl⟩
      · intro _ _ hm
        rw [foldl_fogCell_mem false (fogWindow loc) _ loc
          (fogWindow_nodup loc) (self_mem_fogWindow loc)]
        have hmask : (s2.updateTile loc
            ⟨(s2.getTile loc).tileType.own, newPop, some newOwner⟩).fogMask loc
            = s2.fogMask loc := rfl
        rw [hmask, getTile_updateTile_self]
        unfold fogCellTile
        dsimp only
        simp only [Bool.false_eq_true, if_false]
        rw [if_neg (by unfold wadd8; omega)]
        exact TileType.reveal_own _
    · -- neither lost nor won: no fog adjustment
      simp only [decide_eq_false hl, decide_eq_false hw, Bool.or_self,
        Bool.false_eq_true, if_false]
      refine ⟨?_, ?_, ?_, rfl, rfl, rfl, rfl, rfl, rfl, rfl, rfl, ?_⟩
      · rw [getTile_updateTile_self]
      · rw [getTile_updateTile_self]
      · intro c' hc'
        rw [getTile_updateTile_ne _ _ hc']
        exact ⟨rfl, rfl⟩
      · intro hw' _ _
        exact absurd hw' hw

/-- Full characterization of a successful `change_tile_ownership` (the
`lands` bookkeeping is described separately by
`changeTileOwnership_lands`). -/
lemma changeTileOwnership_spec (s : GameState P n) (loc : Location n)
    (newOwner : Fin P) (newPop : Nat)
    (h : ¬ (s.getTile loc).owner = some newOwner) :
    ∃ s', s.changeTileOwnership loc newOwner newPop = some s' ∧
      (s'.getTile loc).population = newPop ∧
      (s'.getTile loc).owner = some newOwner ∧
      (∀ c', c' ≠ loc →
        (s'.getTile c').population = (s.getTile c').population ∧
        (s'.getTile c').owner = (s.getTile c').owner) ∧
      s'.turn = s.turn ∧ s'.maxTurn = s.maxTurn ∧
      s'.playerId = s.playerId ∧ s'.armies = s.armies ∧
      s'.cityCount = s.cityCount ∧
      s'.generalRevealedTo = s.generalRevealedTo ∧
      s'.generals = s.generals ∧
      (newOwner = s.playerId → s.fogMask loc < 255 →
        (s'.getTile loc).tileType = (s.getTile loc).tileType.own) := by
  unfold changeTileOwnership
  rw [if_neg h]
  dsimp only
  cases howner : (s.getTile loc).owner with
  | none =>
    simp only [howner]
    refine ⟨_, rfl, ?_⟩
    obtain ⟨g1, g2, g3, g4, g5, g6, g7, g8, g9, g10, g11, g12⟩ :=
      ownershipTileUpdate_spec
        { s with
          lands := Function.update s.lands newOwner
            (wadd (s.lands newOwner) 1) } loc newOwner newPop s.playerId
    refine ⟨g1, g2, fun c' hc' => g3 c' hc', g4, g5, g6, g8, g9, g10, g11,
      ?_⟩
    intro hw hm
    exact g12 hw (by rw [show ({ s with
      lands := Function.update s.lands newOwner
        (wadd (s.lands newOwner) 1) } : GameState P n).getTile loc
        = s.getTile loc from rfl, howner]; simp) hm
  | some prevOwner =>
    simp only [howner]
    refine ⟨_, rfl, ?_⟩
    obtain ⟨g1, g2, g3, g4, g5, g6, g7, g8, g9, g10, g11, g12⟩ :=
      ownershipTileUpdate_spec
        { s with
          lands := Function.update
            (Function.update s.lands prevOwner (wsub (s.lands prevOwner) 1))
            newOwner
            (wadd (Function.update s.lands prevOwner
              (wsub (s.lands prevOwner) 1) newOwner) 1) } loc newOwner newPop
        s.playerId
    refine ⟨g1, g2, fun c' hc' => g3 c' hc', g4, g5, g6, g8, g9, g10, g11,
      ?_⟩
    intro hw hm
    refine g12 hw ?_ hm
    show ¬ (s.getTile loc).owner = some s.playerId
    rw [howner]
    intro hc
    rw [← hw] at hc
    exact h (howner.trans hc)

lemma unwrapLocation_isSome {g : GeneralLocation n}
    (h : ¬ g = GeneralLocation.Unknown) : ∃ l, unwrapLocation g = some l := by
  cases g with
  | Known l => exact ⟨l, rfl⟩
  | Dead l => exact ⟨l, rfl⟩
  | Unknown => exact absurd rfl h

lemma moveQuantity_bounds {t : Tile P} {half : Bool} (h1 : 1 ≤ t.population)
    (h2 : t.population < 65536) :
    moveQuantity t half ≤ t.population - 1 ∧
    t.population - 1 ≤ 2 * moveQuantity t half + 1 := by
  unfold moveQuantity
  rw [wsub_small h1 h2]
  cases half
  · simp only [Bool.false_eq_true, if_false]; omega
  · rw [if_pos rfl]; omega

/-- Characterization of the attack branch of `process_command`
(`attackResolve`): the returned `evaporated` amount, the destination
tile's new population/owner, the dead-general bookkeeping, and the
untouchedness of every other cell and of the fields other than `tiles`,
`fogMask`, `lands`, `generals` and `generalRevealedTo`. -/
lemma attackResolve_spec (sFrom : GameState P n) (toLoc : Location n)
    (p : Fin P) (tt : Tile P) (m : Nat)
    (hatk : ¬ tt.owner = some p)
    (htt : sFrom.getTile toLoc = tt)
    (hm : m < 65536)
    (hpopT : tt.population ≤ 65520)
    (hgen : ¬ sFrom.generals sFrom.playerId = GeneralLocation.Unknown)
    (hgenown : tt.population < m →
      (tt.tileType = TileType.EnemyGeneral ∨
       tt.tileType = TileType.OwnedGeneral) → ¬ tt.owner = none) :
    ∃ s₂, attackResolve sFrom toLoc p tt m
        = some (s₂, if tt.population < m then tt.population else m) ∧
      (∀ c', c' ≠ toLoc →
        (s₂.getTile c').population = (sFrom.getTile c').population ∧
        (s₂.getTile c').owner = (sFrom.getTile c').owner) ∧
      (tt.population < m →
        (s₂.getTile toLoc).population = m - tt.population ∧
        (s₂.getTile toLoc).owner = some p ∧
        (∀ q, tt.owner = some q →
          (tt.tileType = TileType.EnemyGeneral ∨
           tt.tileType = TileType.OwnedGeneral) →
          s₂.generals q = GeneralLocation.Dead toLoc) ∧
        (p = sFrom.playerId → sFrom.fogMask toLoc < 255 →
          (s₂.getTile toLoc).tileType = tt.tileType.own)) ∧
      (¬ tt.population < m →
        s₂.getTile toLoc
          = ⟨tt.tileType, tt.population - m, tt.owner⟩) ∧
      s₂.turn = sFrom.turn ∧ s₂.maxTurn = sFrom.maxTurn ∧
      s₂.playerId = sFrom.playerId ∧ s₂.armies = sFrom.armies ∧
      s₂.cityCount = sFrom.cityCount := by
  unfold attackResolve
  by_cases hcap : tt.population < m
  · simp only [if_pos hcap]
    have hown : ¬ (sFrom.getTile toLoc).owner = some p := by
      rw [htt]; exact hatk
    obtain ⟨sOwn, heq, g1, g2, g3, g4, g5, g6, g7, g8, g9, g10, g11⟩ :=
      changeTileOwnership_spec sFrom toLoc p (wsub m tt.population) hown
    rw [heq]
    dsimp only
    rw [wsub_small (Nat.le_of_lt hcap) hm] at g1
    have g11' : p = sFrom.playerId → sFrom.fogMask toLoc < 255 →
        (sOwn.getTile toLoc).tileType = tt.tileType.own := by
      intro hw hmsk
      rw [g11 hw hmsk, htt]
    by_cases hgt : tt.tileType = TileType.EnemyGeneral ∨
        tt.tileType = TileType.OwnedGeneral
    · rw [if_pos hgt]
      cases howq : tt.owner with
      | none => exact absurd howq (hgenown hcap hgt)
      | some q =>
        dsimp only
        have hgl : ∃ l,
            unwrapLocation (Function.update sOwn.generals q
              (GeneralLocation.Dead toLoc) sOwn.playerId) = some l := by
          by_cases hq : sOwn.playerId = q
          · rw [hq, Function.update_same]
            exact ⟨toLoc, rfl⟩
          · rw [Function.update_noteq hq, g10, g6]
            exact unwrapLocation_isSome hgen
        obtain ⟨gl, hgl⟩ := hgl
        have hg2 : ({ sOwn with
            generals := Function.update sOwn.generals q
              (GeneralLocation.Dead toLoc) } : GameState P n).getOwnGeneral
            = some gl := hgl
        rw [hg2]
        dsimp only
        have hdead : ∀ q', (some q : Option (Fin P)) = some q' →
            (tt.tileType = TileType.EnemyGeneral ∨
             tt.tileType = TileType.OwnedGeneral) →
            Function.update sOwn.generals q (GeneralLocation.Dead toLoc) q'
              = GeneralLocation.Dead toLoc := by
          intro q' hq' _
          cases hq'
          rw [Function.update_same]
        split
        · exact ⟨_, rfl, fun c' hc' => g3 c' hc',
            fun _ => ⟨g1, g2, hdead, g11'⟩,
            fun hnc => absurd hcap hnc, g4, g5, g6, g7, g8⟩
        · exact ⟨_, rfl, fun c' hc' => g3 c' hc',
            fun _ => ⟨g1, g2, hdead, g11'⟩,
            fun hnc => absurd hcap hnc, g4, g5, g6, g7, g8⟩
    · rw [if_neg hgt]
      dsimp only
      obtain ⟨gl, hgl⟩ := unwrapLocation_isSome hgen
      have hg2 : sOwn.getOwnGeneral = some gl := by
        show unwrapLocation (sOwn.generals sOwn.playerId) = some gl
        rw [g10, g6]
        exact hgl
      rw [hg2]
      dsimp only
      have hdead : ∀ q', tt.owner = some q' →
          (tt.tileType = TileType.EnemyGeneral ∨
           tt.tileType = TileType.OwnedGeneral) →
          sOwn.generals q' = GeneralLocation.Dead toLoc :=
        fun _ _ hgt' => absurd hgt' hgt
      split
      · exact ⟨_, rfl, fun c' hc' => g3 c' hc',
          fun _ => ⟨g1, g2, hdead, g11'⟩,
          fun hnc => absurd hcap hnc, g4, g5, g6, g7, g8⟩
      · exact ⟨_, rfl, fun c' hc' => g3 c' hc',
          fun _ => ⟨g1, g2, hdead, g11'⟩,
          fun hnc => absurd hcap hnc, g4, g5, g6, g7, g8⟩
  · simp only [if_neg hcap]
    have hfrom : (sFrom.getTile toLoc).population = tt.population := by
      rw [htt]
    have heq := changeTilePopulation_eq_some sFrom toLoc (-(m : Int))
      (by rw [hfrom]; omega) (by rw [hfrom]; omega)
    rw [heq]
    dsimp only
    refine ⟨_, rfl, ?_, fun hc => absurd hc hcap, fun _ => ?_, rfl, rfl, rfl,
      rfl, rfl⟩
    · intro c' hc'
      rw [getTile_updateTile_ne _ _ hc']
      exact ⟨rfl, rfl⟩
    · rw [getTile_updateTile_self, htt]
      have hv : ((tt.population : Int) + -(m : Int)).toNat
          = tt.population - m := by omega
      rw [hv]

/-- The attack path of `process_command`'s move resolution, lifted to
`resolveCommand`: the source cell loses the moving quantity, and the
destination resolves as `attackResolve` describes; the subsequent armies
bookkeeping touches no tile. -/
lemma resolveCommand_attack_spec (s1 : GameState P n) (cmd : MoveCommand n)
    (p : Fin P) (ft tt : Tile P) (m : Nat)
    (hft : s1.getTile cmd.fromLoc = ft)
    (htt : s1.getTile cmd.toLoc = tt)
    (hm : moveQuantity ft cmd.half = m)
    (hne : ¬ ft = tt)
    (hturn : ¬ s1.turn = s1.maxTurn)
    (hpop1 : 1 ≤ ft.population)
    (hpopF : ft.population < 65536)
    (hatk : ¬ tt.owner = some p)
    (hpopT : tt.population ≤ 65520)
    (hgen : ¬ s1.generals s1.playerId = GeneralLocation.Unknown)
    (hgenown : tt.population < m →
      (tt.tileType = TileType.EnemyGeneral ∨
       tt.tileType = TileType.OwnedGeneral) → ¬ tt.owner = none) :
    ∃ s₂, resolveCommand s1 cmd p = some s₂ ∧
      (s₂.getTile cmd.fromLoc).population = ft.population - m ∧
      (tt.population < m →
        (s₂.getTile cmd.toLoc).population = m - tt.population ∧
        (s₂.getTile cmd.toLoc).owner = some p ∧
        (∀ q, tt.owner = some q →
          (tt.tileType = TileType.EnemyGeneral ∨
           tt.tileType = TileType.OwnedGeneral) →
          s₂.generals q = GeneralLocation.Dead cmd.toLoc) ∧
        (p = s1.playerId → s1.fogMask cmd.toLoc < 255 →
          (s₂.getTile cmd.toLoc).tileType = tt.tileType.own)) ∧
      (¬ tt.population < m →
        s₂.getTile cmd.toLoc = ⟨tt.tileType, tt.population - m, tt.owner⟩) ∧
      s₂.turn = s1.turn ∧ s₂.playerId = s1.playerId := by
  obtain ⟨hb1, hb2⟩ := @moveQuantity_bounds P ft cmd.half hpop1 hpopF
  rw [hm] at hb1 hb2
  have hlocne : ¬ cmd.toLoc = cmd.fromLoc := by
    intro h
    exact hne (by rw [← hft, ← htt, h])
  unfold resolveCommand
  dsimp only
  rw [hft, htt, if_neg hne, if_neg hturn, hm]
  have heqF := changeTilePopulation_eq_some s1 cmd.fromLoc (-(m : Int))
    (by rw [hft]; omega) (by rw [hft]; omega)
  rw [heqF]
  dsimp only
  rw [if_neg hatk]
  have hpF : (((s1.getTile cmd.fromLoc).population : Int) + -(m : Int)).toNat
      = ft.population - m := by rw [hft]; omega
  have httF : (s1.updateTile cmd.fromLoc
      ⟨(s1.getTile cmd.fromLoc).tileType,
       (((s1.getTile cmd.fromLoc).population : Int) + -(m : Int)).toNat,
       (s1.getTile cmd.fromLoc).owner⟩).getTile cmd.toLoc = tt := by
    rw [getTile_updateTile_ne _ _ hlocne, htt]
  obtain ⟨sAtk, haeq, a1, a2, a3, a4, a5, a6, a7, a8⟩ :=
    attackResolve_spec _ cmd.toLoc p tt m hatk httF (by omega) hpopT hgen
      hgenown
  rw [haeq]
  dsimp only
  have hFpop : (sAtk.getTile cmd.fromLoc).population = ft.population - m := by
    rw [(a1 cmd.fromLoc (fun h => hlocne h.symm)).1, getTile_updateTile_self]
    exact hpF
  cases howo : tt.owner with
  | none =>
    dsimp only
    refine ⟨_, rfl, hFpop, ?_, fun hnc => howo ▸ a3 hnc, a4, a6⟩
    intro hc
    obtain ⟨x1, x2, x3, x4⟩ := a2 hc
    exact ⟨x1, x2, fun q hq hg => x3 q (howo.trans hq) hg, x4⟩
  | some q0 =>
    dsimp only
    refine ⟨_, rfl, hFpop, ?_, fun hnc => howo ▸ a3 hnc, a4, a6⟩
    intro hc
    obtain ⟨x1, x2, x3, x4⟩ := a2 hc
    exact ⟨x1, x2, fun q hq hg => x3 q (howo.trans hq) hg, x4⟩

/-- The reinforcement path of `process_command`'s move resolution: moving
onto a tile the acting player already owns adds the moving quantity there
and loses nothing. -/
lemma resolveCommand_reinforce_spec (s1 : GameState P n)
    (cmd : MoveCommand n) (p : Fin P) (ft tt : Tile P) (m : Nat)
    (hft : s1.getTile cmd.fromLoc = ft)
    (htt : s1.getTile cmd.toLoc = tt)
    (hm : moveQuantity ft cmd.half = m)
    (hne : ¬ ft = tt)
    (hturn : ¬ s1.turn = s1.maxTurn)
    (hpop1 : 1 ≤ ft.population)
    (hpopF : ft.population < 65536)
    (hown : tt.owner = some p)
    (hnoovf : tt.population + m ≤ 65520) :
    ∃ s₂, resolveCommand s1 cmd p = some s₂ ∧
      (s₂.getTile cmd.fromLoc).population = ft.population - m ∧
      s₂.getTile cmd.toLoc = ⟨tt.tileType, tt.population + m, tt.owner⟩ := by
  obtain ⟨hb1, hb2⟩ := @moveQuantity_bounds P ft cmd.half hpop1 hpopF
  rw [hm] at hb1 hb2
  have hlocne : ¬ cmd.toLoc = cmd.fromLoc := by
    intro h
    exact hne (by rw [← hft, ← htt, h])
  unfold resolveCommand
  dsimp only
  rw [hft, htt, if_neg hne, if_neg hturn, hm]
  have heqF := changeTilePopulation_eq_some s1 cmd.fromLoc (-(m : Int))
    (by rw [hft]; omega) (by rw [hft]; omega)
  rw [heqF]
  dsimp only
  rw [if_pos hown]
  have httF : (s1.updateTile cmd.fromLoc
      ⟨(s1.getTile cmd.fromLoc).tileType,
       (((s1.getTile cmd.fromLoc).population : Int) + -(m : Int)).toNat,
       (s1.getTile cmd.fromLoc).owner⟩).getTile cmd.toLoc = tt := by
    rw [getTile_updateTile_ne _ _ hlocne, htt]
  have heqT := changeTilePopulation_eq_some
    (s1.updateTile cmd.fromLoc
      ⟨(s1.getTile cmd.fromLoc).tileType,
       (((s1.getTile cmd.fromLoc).population : Int) + -(m : Int)).toNat,
       (s1.getTile cmd.fromLoc).owner⟩) cmd.toLoc (m : Int)
    (by rw [httF]; omega) (by rw [httF]; omega)
  rw [heqT]
  refine ⟨_, rfl, ?_, ?_⟩
  · rw [getTile_updateTile_ne _ _ (fun h => hlocne h.symm),
      getTile_updateTile_self]
    rw [hft]
    have : (((ft.population : Int)) + -(m : Int)).toNat
        = ft.population - m := by omega
    exact this
  · rw [getTile_updateTile_self, httF]
    have : ((tt.population : Int) + (m : Int)).toNat
        = tt.population + m := by omega
    rw [this]

end GameState

/-! ## Claims -/

/-- Claim C1, counterexample: on `stateC1`, a move command with an unowned
source cell processed with `is_inferred = true` places a phantom army of
population 8 = round(0.8 × armies[1]) there, not
4 = round(0.8 × (armies[1] − lands[1])) as the claim states. -/
theorem claim1_counterexample :
    (stateC1.processCommand (MoveCommand.mk (1, 1) (1, 1) false) 1 true).map
        (fun s' => (s'.getTile (1, 1)).population) = some 8 ∧
    (stateC1.getTile (1, 1)).owner = none ∧
    claimedPhantomSize (stateC1.armies 1) (stateC1.lands 1) = 4 ∧
    (8 : Nat) ≠ 4 := by
  refine ⟨by decide, by decide, by decide, by decide⟩

/-- Claim C1 (amended): for every state and every move command whose
source cell is unowned, `process_command` with `is_inferred = true` first
places a phantom army on the source cell sized
round(0.8 × armies[acting_player]) — the acting player's full tracked army
total, not its surplus over land — owned by the acting player, and then
resolves the move from that phantomized state. -/
theorem claim1_amended (s : GameState P n) (cmd : MoveCommand n) (p : Fin P)
    (ho : (s.getTile cmd.fromLoc).owner = none) :
    (s.phantomize cmd p true).getTile cmd.fromLoc
        = ⟨TileType.Enemy, round08 (s.armies p), some p⟩ ∧
    s.processCommand cmd p true
        = GameState.resolveCommand
            (s.updateTile cmd.fromLoc
              ⟨TileType.Enemy, round08 (s.armies p), some p⟩) cmd p := by
  have hph : s.phantomize cmd p true
      = s.updateTile cmd.fromLoc
          ⟨TileType.Enemy, round08 (s.armies p), some p⟩ := by
    unfold GameState.phantomize
    rw [if_pos ⟨rfl, ho⟩]
  refine ⟨?_, ?_⟩
  · rw [hph]
    simp
  · unfold GameState.processCommand
    rw [hph]

/-- Witness for `claim1_amended` at a concrete input. -/
theorem claim1_witness :
    (stateC1.getTile (1, 1)).owner = none ∧
    (stateC1.phantomize (MoveCommand.mk (1, 1) (0, 0) false) 1 true).getTile
        (1, 1) = ⟨TileType.Enemy, round08 (stateC1.armies 1), some 1⟩ :=
  ⟨by decide,
   (claim1_amended stateC1 (MoveCommand.mk (1, 1) (0, 0) false) 1
      (by decide)).1⟩

/-- Claim C4, counterexample: `change_tile_population` on a cell of
population 3 with delta −100 would make the population negative, yet the
code does not fail hard — it silently wraps mod 2^16 and returns
population 65439 (the overflow guard only catches wrapped values above
65520). -/
theorem claim4_counterexample :
    ((3 : Int) + (-100) < 0) ∧
    (stateC4.changeTilePopulation (0, 0) (-100)).map
        (fun s' => (s'.getTile (0, 0)).population) = some 65439 ∧
    stateC4.changeTilePopulation (0, 0) (-100) ≠ none := by
  refine ⟨by decide, by decide, by decide⟩

/-- Claim C4 (amended): for every state, cell and i16 delta, writing
`x = population + delta` (exact integer arithmetic): if `0 ≤ x ≤ 65520`
the result is exactly `x` (the behaviour the claim describes); the
operation fails hard with PopulationOverflow exactly when the value of
`x` mod 2^16 lands in (65520, 65535] — i.e. for overflows into the
15-value safety margin and for underflows by at most 15 below zero; any
other out-of-range `x` is silently wrapped mod 2^16 (an underflow by 16
or more yields a large positive population, a sum beyond 65535 wraps to a
small one), contrary to the claim's "never silently wrapped". -/
theorem claim4_amended (s : GameState P n) (loc : Location n) (d : Int)
    (hpop : (s.getTile loc).population < 65536)
    (hd : -32768 ≤ d ∧ d ≤ 32767) :
    (0 ≤ ((s.getTile loc).population : Int) + d ∧
        ((s.getTile loc).population : Int) + d ≤ 65520 →
      s.changeTilePopulation loc d
        = some (s.updateTile loc
            ⟨(s.getTile loc).tileType,
             (((s.getTile loc).population : Int) + d).toNat,
             (s.getTile loc).owner⟩)) ∧
    (-15 ≤ ((s.getTile loc).population : Int) + d ∧
        ((s.getTile loc).population : Int) + d < 0 →
      s.changeTilePopulation loc d = none) ∧
    (((s.getTile loc).population : Int) + d < -15 →
      s.changeTilePopulation loc d
        = some (s.updateTile loc
            ⟨(s.getTile loc).tileType,
             (((s.getTile loc).population : Int) + d + 65536).toNat,
             (s.getTile loc).owner⟩)) ∧
    (65520 < ((s.getTile loc).population : Int) + d ∧
        ((s.getTile loc).population : Int) + d ≤ 65535 →
      s.changeTilePopulation loc d = none) ∧
    (65535 < ((s.getTile loc).population : Int) + d →
      s.changeTilePopulation loc d
        = some (s.updateTile loc
            ⟨(s.getTile loc).tileType,
             (((s.getTile loc).population : Int) + d - 65536).toNat,
             (s.getTile loc).owner⟩)) := by
  have hdef : s.changeTilePopulation loc d
      = if 65520 < ((((s.getTile loc).population : Int) + d) % 65536).toNat
        then none
        else some (s.updateTile loc
          ⟨(s.getTile loc).tileType,
           ((((s.getTile loc).population : Int) + d) % 65536).toNat,
           (s.getTile loc).owner⟩) := rfl
  obtain ⟨hd0, hd1⟩ := hd
  refine ⟨?_, ?_, ?_, ?_, ?_⟩
  · rintro ⟨h0, h1⟩
    rw [hdef, if_neg (by omega)]
    have he : ((((s.getTile loc).population : Int) + d) % 65536).toNat
        = (((s.getTile loc).population : Int) + d).toNat := by omega
    rw [he]
  · rintro ⟨h0, h1⟩
    rw [hdef, if_pos (by omega)]
  · intro h0
    rw [hdef, if_neg (by omega)]
    have he : ((((s.getTile loc).population : Int) + d) % 65536).toNat
        = (((s.getTile loc).population : Int) + d + 65536).toNat := by omega
    rw [he]
  · rintro ⟨h0, h1⟩
    rw [hdef, if_pos (by omega)]
  · intro h0
    rw [hdef, if_neg (by omega)]
    have he : ((((s.getTile loc).population : Int) + d) % 65536).toNat
        = (((s.getTile loc).population : Int) + d - 65536).toNat := by omega
    rw [he]

/-- Witness for `claim4_amended` at a concrete input. -/
theorem claim4_witness :
    (stateC4.getTile (0, 0)).population < 65536 ∧
    ((0 : Int) ≤ (3 : Int) + 10 ∧ (3 : Int) + 10 ≤ 65520) ∧
    stateC4.changeTilePopulation (0, 0) 10
      = some (stateC4.updateTile (0, 0) ⟨TileType.OwnedTile, 13, some 0⟩) := by
  refine ⟨by decide, by decide, ?_⟩
  have h := (claim4_amended stateC4 (0, 0) 10 (by decide)
    ⟨by decide, by decide⟩).1 ⟨by decide, by decide⟩
  rw [h]
  decide

/-- Claim C7: `process_command` is a no-op — it returns the (possibly
phantomized) state with none of the move resolution applied — when the
source and destination tiles are identical or the turn counter is at
`max_turn`; with `is_inferred = false` it returns the input state itself. -/
theorem claim7_noop (s : GameState P n) (cmd : MoveCommand n) (p : Fin P)
    (img : Bool)
    (h : (s.phantomize cmd p img).getTile cmd.fromLoc
           = (s.phantomize cmd p img).getTile cmd.toLoc ∨
         s.turn = s.maxTurn) :
    s.processCommand cmd p img = some (s.phantomize cmd p img) ∧
    (img = false → s.processCommand cmd p img = some s) := by
  have hmain : s.processCommand cmd p img = some (s.phantomize cmd p img) := by
    unfold GameState.processCommand GameState.resolveCommand
    by_cases htile : (s.phantomize cmd p img).getTile cmd.fromLoc
        = (s.phantomize cmd p img).getTile cmd.toLoc
    · rw [if_pos htile]
    · have ht : s.turn = s.maxTurn := h.resolve_left htile
      rw [if_neg htile, if_pos]
      rw [GameState.phantomize_turn, GameState.phantomize_maxTurn]
      exact ht
  refine ⟨hmain, fun himg => ?_⟩
  subst himg
  rw [hmain, GameState.phantomize_false]

/-- Witness for `claim7_noop` at a concrete input (source = destination). -/
theorem claim7_witness :
    stateC4.processCommand (MoveCommand.mk (0, 0) (0, 0) false) 0 false
      = some stateC4 :=
  (claim7_noop stateC4 (MoveCommand.mk (0, 0) (0, 0) false) 0 false
    (Or.inl rfl)).2 rfl

/-- Claim C9: before turn 50 (the source in fact returns early through
turn 50 inclusive), `possible_enemy_moves` returns exactly `Noop`,
followed by `ExpandLand` exactly when the opponent's tracked army exceeds
its tracked land — never an `Invasion`. -/
theorem claim9_early_moves (pick : List (Location n) → Option (Location n))
    (s : GameState P n) (p : Fin P) (h : s.turn < 50) :
    possibleEnemyMoves pick s p
      = some ([EnemyMove.Noop] ++
          (if s.lands p < s.armies p then [EnemyMove.ExpandLand] else [])) := by
  unfold possibleEnemyMoves
  rw [if_pos (by omega : s.turn ≤ 50)]

/-- Witness for `claim9_early_moves` at a concrete input. -/
theorem claim9_witness :
    stateC9.turn < 50 ∧
    possibleEnemyMoves (fun _ => none) stateC9 1
      = some [EnemyMove.Noop, EnemyMove.ExpandLand] :=
  ⟨by decide,
   (claim9_early_moves (fun _ => none) stateC9 1 (by decide)).trans
     (by decide)⟩

/-- Claim C2, counterexample: in `stateC2`, the attack from (0,0) onto the
enemy tile (0,1) evaporates 1 (the destination's old population), yet the
two cells' total population drops from 6 to 4 — by **twice** the
evaporated amount, not by the evaporated amount as the claim states. -/
theorem claim2_counterexample :
    ((stateC2.processCommand (MoveCommand.mk (0, 0) (0, 1) false) 0
        false).map
      (fun s₂ => (s₂.getTile (0, 0)).population
        + (s₂.getTile (0, 1)).population)) = some 4 ∧
    (stateC2.getTile (0, 0)).population + (stateC2.getTile (0, 1)).population
      = 6 ∧
    GameState.evaporatedOf stateC2 (MoveCommand.mk (0, 0) (0, 1) false)
      = 1 ∧
    ¬ ((6 : Nat) - 4 = 1) := by
  refine ⟨by decide, by decide, by decide, by decide⟩

/-- Claim C2 (amended): for every command resolved by `process_command`
(on the post-phantom state `s1`, within representable population bounds),
`population_before(from) + population_before(to) - population_after(from)
- population_after(to)` equals **2 × evaporated** for an attack — on
capture both sides lose the destination's old population, otherwise both
sides lose the moving quantity — and equals 0 for a reinforcement onto a
tile the acting player already owns. -/
theorem claim2_amended (s s1 : GameState P n) (cmd : MoveCommand n)
    (p : Fin P) (img : Bool) (hs1 : s.phantomize cmd p img = s1)
    (hne : ¬ s1.getTile cmd.fromLoc = s1.getTile cmd.toLoc)
    (hturn : ¬ s1.turn = s1.maxTurn)
    (hpop1 : 1 ≤ (s1.getTile cmd.fromLoc).population)
    (hpopF : (s1.getTile cmd.fromLoc).population < 65536)
    (hpopT : (s1.getTile cmd.toLoc).population ≤ 65520)
    (hre : (s1.getTile cmd.toLoc).owner = some p →
      (s1.getTile cmd.toLoc).population
        + moveQuantity (s1.getTile cmd.fromLoc) cmd.half ≤ 65520)
    (hgen : ¬ s1.generals s1.playerId = GeneralLocation.Unknown)
    (hgenown : (s1.getTile cmd.toLoc).population
        < moveQuantity (s1.getTile cmd.fromLoc) cmd.half →
      ((s1.getTile cmd.toLoc).tileType = TileType.EnemyGeneral ∨
       (s1.getTile cmd.toLoc).tileType = TileType.OwnedGeneral) →
      ¬ (s1.getTile cmd.toLoc).owner = none) :
    ∃ s₂, s.processCommand cmd p img = some s₂ ∧
      (s₂.getTile cmd.fromLoc).population + (s₂.getTile cmd.toLoc).population
          + (if (s1.getTile cmd.toLoc).owner = some p then 0
             else 2 * GameState.evaporatedOf s1 cmd)
        = (s1.getTile cmd.fromLoc).population
            + (s1.getTile cmd.toLoc).population := by
  have hproc : s.processCommand cmd p img
      = GameState.resolveCommand s1 cmd p := by
    unfold GameState.processCommand
    rw [hs1]
  obtain ⟨hb1, hb2⟩ :=
    @GameState.moveQuantity_bounds P (s1.getTile cmd.fromLoc) cmd.half
      hpop1 hpopF
  by_cases hown : (s1.getTile cmd.toLoc).owner = some p
  · obtain ⟨s₂, heq, h1, h2⟩ := GameState.resolveCommand_reinforce_spec s1
      cmd p _ _ _ rfl rfl rfl hne hturn hpop1 hpopF hown (hre hown)
    refine ⟨s₂, hproc.trans heq, ?_⟩
    rw [if_pos hown, h1, h2]
    dsimp only
    omega
  · obtain ⟨s₂, heq, h1, hcap, hnoncap, -, -⟩ :=
      GameState.resolveCommand_attack_spec s1 cmd p _ _ _ rfl rfl rfl hne
        hturn hpop1 hpopF hown hpopT hgen hgenown
    refine ⟨s₂, hproc.trans heq, ?_⟩
    rw [if_neg hown]
    have hev : GameState.evaporatedOf s1 cmd
        = if (s1.getTile cmd.toLoc).population
              < moveQuantity (s1.getTile cmd.fromLoc) cmd.half
          then (s1.getTile cmd.toLoc).population
          else moveQuantity (s1.getTile cmd.fromLoc) cmd.half := rfl
    by_cases hc : (s1.getTile cmd.toLoc).population
        < moveQuantity (s1.getTile cmd.fromLoc) cmd.half
    · obtain ⟨hp2, -, -, -⟩ := hcap hc
      rw [h1, hp2, hev, if_pos hc]
      omega
    · have h3 := hnoncap hc
      rw [h1, h3, hev, if_neg hc]
      dsimp only
      omega

/-- Witness for `claim2_amended` at a concrete input (the `stateC2`
attack: 5 + 1 before, 1 + 3 after, evaporated 1). -/
theorem claim2_witness :
    ∃ s₂, stateC2.processCommand (MoveCommand.mk (0, 0) (0, 1) false) 0
        false = some s₂ ∧
      (s₂.getTile (0, 0)).population + (s₂.getTile (0, 1)).population
          + (if (stateC2.getTile (0, 1)).owner = some 0 then 0
             else 2 * GameState.evaporatedOf stateC2
               (MoveCommand.mk (0, 0) (0, 1) false))
        = (stateC2.getTile (0, 0)).population
            + (stateC2.getTile (0, 1)).population :=
  claim2_amended stateC2 stateC2 (MoveCommand.mk (0, 0) (0, 1) false) 0
    false (by decide) (by decide) (by decide) (by decide) (by decide)
    (by decide) (by decide) (by decide) (by decide)

/-- Claim C6: for every attack resolved by `process_command` (destination
not owned by the acting player, within representable bounds): if the
moving quantity strictly exceeds the destination population, the
destination changes ownership to the acting player with new population
moving quantity − destination population, a captured general's
`GeneralLocation` becomes `Dead` at that cell, and (for the local player,
below the fog-mask wrap bound) the tile type becomes `own` of the old
type — in particular `OwnedCity` for a neutral city; otherwise the
destination only loses the moving quantity and keeps its owner and type. -/
theorem claim6_attack (s s1 : GameState P n) (cmd : MoveCommand n)
    (p : Fin P) (img : Bool) (hs1 : s.phantomize cmd p img = s1)
    (hne : ¬ s1.getTile cmd.fromLoc = s1.getTile cmd.toLoc)
    (hturn : ¬ s1.turn = s1.maxTurn)
    (hpop1 : 1 ≤ (s1.getTile cmd.fromLoc).population)
    (hpopF : (s1.getTile cmd.fromLoc).population < 65536)
    (hatk : ¬ (s1.getTile cmd.toLoc).owner = some p)
    (hpopT : (s1.getTile cmd.toLoc).population ≤ 65520)
    (hgen : ¬ s1.generals s1.playerId = GeneralLocation.Unknown)
    (hgenown : (s1.getTile cmd.toLoc).population
        < moveQuantity (s1.getTile cmd.fromLoc) cmd.half →
      ((s1.getTile cmd.toLoc).tileType = TileType.EnemyGeneral ∨
       (s1.getTile cmd.toLoc).tileType = TileType.OwnedGeneral) →
      ¬ (s1.getTile cmd.toLoc).owner = none) :
    ∃ s₂, s.processCommand cmd p img = some s₂ ∧
      ((s1.getTile cmd.toLoc).population
          < moveQuantity (s1.getTile cmd.fromLoc) cmd.half →
        (s₂.getTile cmd.toLoc).owner = some p ∧
        (s₂.getTile cmd.toLoc).population
          = moveQuantity (s1.getTile cmd.fromLoc) cmd.half
              - (s1.getTile cmd.toLoc).population ∧
        (∀ q, (s1.getTile cmd.toLoc).owner = some q →
          ((s1.getTile cmd.toLoc).tileType = TileType.EnemyGeneral ∨
           (s1.getTile cmd.toLoc).tileType = TileType.OwnedGeneral) →
          s₂.generals q = GeneralLocation.Dead cmd.toLoc) ∧
        (p = s1.playerId → s1.fogMask cmd.toLoc < 255 →
          (s₂.getTile cmd.toLoc).tileType
            = (s1.getTile cmd.toLoc).tileType.own)) ∧
      (¬ (s1.getTile cmd.toLoc).population
          < moveQuantity (s1.getTile cmd.fromLoc) cmd.half →
        s₂.getTile cmd.toLoc
          = ⟨(s1.getTile cmd.toLoc).tileType,
             (s1.getTile cmd.toLoc).population
               - moveQuantity (s1.getTile cmd.fromLoc) cmd.half,
             (s1.getTile cmd.toLoc).owner⟩) := by
  have hproc : s.processCommand cmd p img
      = GameState.resolveCommand s1 cmd p := by
    unfold GameState.processCommand
    rw [hs1]
  obtain ⟨s₂, heq, -, hcap, hnoncap, -, -⟩ :=
    GameState.resolveCommand_attack_spec s1 cmd p _ _ _ rfl rfl rfl hne
      hturn hpop1 hpopF hatk hpopT hgen hgenown
  refine ⟨s₂, hproc.trans heq, ?_, hnoncap⟩
  intro hc
  obtain ⟨x1, x2, x3, x4⟩ := hcap hc
  exact ⟨x2, x1, x3, x4⟩

/-- Witness for `claim6_attack` at the claim's own scenario: a neutral
city of population 40 attacked with a moving quantity of 50 is captured
with population 10 and tile type `OwnedCity`. -/
theorem claim6_witness :
    moveQuantity (stateC6.getTile (0, 0)) false = 50 ∧
    (stateC6.getTile (0, 1)).population = 40 ∧
    ∃ s₂, stateC6.processCommand (MoveCommand.mk (0, 0) (0, 1) false) 0
        false = some s₂ ∧
      (s₂.getTile (0, 1)).owner = some 0 ∧
      (s₂.getTile (0, 1)).population = 10 ∧
      (s₂.getTile (0, 1)).tileType = TileType.OwnedCity := by
  refine ⟨by decide, by decide, ?_⟩
  obtain ⟨s₂, h1, h2, -⟩ := claim6_attack stateC6 stateC6
    (MoveCommand.mk (0, 0) (0, 1) false) 0 false (by decide) (by decide)
    (by decide) (by decide) (by decide) (by decide) (by decide) (by decide)
    (by decide)
  obtain ⟨x1, x2, -, x4⟩ := h2 (by decide)
  refine ⟨s₂, h1, x1, ?_, ?_⟩
  · rw [x2]
    decide
  · rw [x4 (by decide) (by decide)]
    decide

/-- Unconditional field bookkeeping of a successful
`change_tile_population`: only the one tile's population changes. -/
lemma changeTilePopulation_some_fields {s s' : GameState P n}
    {loc : Location n} {d : Int} (h : s.changeTilePopulation loc d = some s') :
    s'.turn = s.turn ∧ s'.maxTurn = s.maxTurn ∧ s'.playerId = s.playerId ∧
    s'.lands = s.lands ∧ s'.armies = s.armies ∧
    s'.cityCount = s.cityCount ∧
    s'.generalRevealedTo = s.generalRevealedTo ∧
    s'.generals = s.generals ∧ s'.fogMask = s.fogMask ∧
    (∀ c, (s'.getTile c).tileType = (s.getTile c).tileType ∧
      (s'.getTile c).owner = (s.getTile c).owner) ∧
    (∀ c, c ≠ loc → s'.getTile c = s.getTile c) := by
  unfold GameState.changeTilePopulation at h
  dsimp only at h
  split at h
  · cases h
  · cases h
    refine ⟨rfl, rfl, rfl, rfl, rfl, rfl, rfl, rfl, rfl, ?_, ?_⟩
    · intro c
      by_cases hc : c = loc
      · subst hc
        rw [GameState.getTile_updateTile_self]
        exact ⟨rfl, rfl⟩
      · rw [GameState.getTile_updateTile_ne _ _ hc]
        exact ⟨rfl, rfl⟩
    · intro c hc
      rw [GameState.getTile_updateTile_ne _ _ hc]

/-- Unconditional field bookkeeping of a successful
`change_tile_ownership`: the fields other than `tiles`, `fogMask` and
`lands` are untouched, tile owners change only at the updated cell, and
populations change only at the updated cell. -/
lemma changeTileOwnership_some_fields {s s' : GameState P n}
    {loc : Location n} {newOwner : Fin P} {newPop : Nat}
    (h : s.changeTileOwnership loc newOwner newPop = some s') :
    s'.turn = s.turn ∧ s'.maxTurn = s.maxTurn ∧ s'.playerId = s.playerId ∧
    s'.armies = s.armies ∧ s'.cityCount = s.cityCount ∧
    s'.generalRevealedTo = s.generalRevealedTo ∧
    s'.generals = s.generals ∧
    (∀ c, c ≠ loc → (s'.getTile c).population = (s.getTile c).population ∧
      (s'.getTile c).owner = (s.getTile c).owner) ∧
    (s'.getTile loc).owner = some newOwner ∧
    (s'.getTile loc).population = newPop ∧
    ¬ (s.getTile loc).owner = some newOwner := by
  have hno : ¬ (s.getTile loc).owner = some newOwner := by
    intro hc
    unfold GameState.changeTileOwnership at h
    rw [if_pos hc] at h
    cases h
  obtain ⟨s'', heq, g1, g2, g3, g4, g5, g6, g7, g8, g9, g10, -⟩ :=
    GameState.changeTileOwnership_spec s loc newOwner newPop hno
  rw [heq] at h
  cases h
  exact ⟨g4, g5, g6, g7, g8, g9, g10, fun c hc => g3 c hc, g2, g1, hno⟩

/-- Unconditional field bookkeeping of a successful `attackResolve`:
`turn`, `maxTurn`, `playerId`, `cityCount` and `lands`-irrelevant facts.
The source-cell tile (any cell other than the destination) keeps its
population and owner. -/
lemma attackResolve_some_fields {sFrom : GameState P n} {toLoc : Location n}
    {p : Fin P} {tt : Tile P} {m : Nat} {r : GameState P n × Nat}
    (h : GameState.attackResolve sFrom toLoc p tt m = some r) :
    r.1.turn = sFrom.turn ∧ r.1.maxTurn = sFrom.maxTurn ∧
    r.1.playerId = sFrom.playerId ∧ r.1.cityCount = sFrom.cityCount ∧
    r.1.armies = sFrom.armies := by
  unfold GameState.attackResolve at h
  split at h
  · -- capture branch
    split at h
    · cases h
    · rename_i sOwn hcto
      obtain ⟨f1, f2, f3, f4, f5, -⟩ := changeTileOwnership_some_fields hcto
      split at h
      · cases h
      · rename_i sGen hgen
        have hsg : sGen.turn = sOwn.turn ∧ sGen.maxTurn = sOwn.maxTurn ∧
            sGen.playerId = sOwn.playerId ∧ sGen.cityCount = sOwn.cityCount ∧
            sGen.armies = sOwn.armies := by
          split at hgen
          · split at hgen
            · cases hgen
              exact ⟨rfl, rfl, rfl, rfl, rfl⟩
            · cases hgen
          · cases hgen
            exact ⟨rfl, rfl, rfl, rfl, rfl⟩
        obtain ⟨e1, e2, e3, e4, e5⟩ := hsg
        split at h
        · cases h
        · split at h
          · cases h
            exact ⟨e1.trans f1, e2.trans f2, e3.trans f3, e4.trans f5,
              e5.trans f4⟩
          · cases h
            exact ⟨e1.trans f1, e2.trans f2, e3.trans f3, e4.trans f5,
              e5.trans f4⟩
  · -- plain defense branch
    split at h
    · cases h
    · rename_i sDef hctp
      obtain ⟨f1, f2, f3, -, f5, f6, -⟩ := changeTilePopulation_some_fields hctp
      cases h
      exact ⟨f1, f2, f3, f6, f5⟩

/-- Unconditional field bookkeeping of a successful `process_command`:
`turn`, `maxTurn`, `playerId` and `cityCount` are never modified. -/
lemma processCommand_some_fields {s s' : GameState P n}
    {cmd : MoveCommand n} {p : Fin P} {img : Bool}
    (h : s.processCommand cmd p img = some s') :
    s'.turn = s.turn ∧ s'.maxTurn = s.maxTurn ∧ s'.playerId = s.playerId ∧
    s'.cityCount = s.cityCount := by
  unfold GameState.processCommand GameState.resolveCommand at h
  have hph : (s.phantomize cmd p img).turn = s.turn ∧
      (s.phantomize cmd p img).maxTurn = s.maxTurn ∧
      (s.phantomize cmd p img).playerId = s.playerId ∧
      (s.phantomize cmd p img).cityCount = s.cityCount := by
    unfold GameState.phantomize
    split <;> exact ⟨rfl, rfl, rfl, rfl⟩
  obtain ⟨p1, p2, p3, p4⟩ := hph
  dsimp only at h
  split at h
  · cases h
    exact ⟨p1, p2, p3, p4⟩
  · split at h
    · cases h
      exact ⟨p1, p2, p3, p4⟩
    · split at h
      · cases h
      · rename_i sFrom hctp
        obtain ⟨f1, f2, f3, -, -, f6, -⟩ :=
          changeTilePopulation_some_fields hctp
        split at h
        · obtain ⟨g1, g2, g3, -, -, g6, -⟩ :=
            changeTilePopulation_some_fields h
          exact ⟨g1.trans (f1.trans p1), g2.trans (f2.trans p2),
            g3.trans (f3.trans p3), g6.trans (f6.trans p4)⟩
        · split at h
          · cases h
          · rename_i sAtk evap har
            obtain ⟨a1, a2, a3, a4, -⟩ := attackResolve_some_fields har
            have hfin : s'.turn = sAtk.turn ∧ s'.maxTurn = sAtk.maxTurn ∧
                s'.playerId = sAtk.playerId ∧
                s'.cityCount = sAtk.cityCount := by
              split at h
              · cases h
                exact ⟨rfl, rfl, rfl, rfl⟩
              · cases h
                exact ⟨rfl, rfl, rfl, rfl⟩
            obtain ⟨e1, e2, e3, e4⟩ := hfin
            exact ⟨e1.trans (a1.trans (f1.trans p1)),
              e2.trans (a2.trans (f2.trans p2)),
              e3.trans (a3.trans (f3.trans p3)),
              e4.trans (a4.trans (f6.trans p4))⟩

/-- The growth loop of `tick`, characterized over any duplicate-free cell
list: each listed cell whose tile satisfies the growth condition (and is
below the population guard) gains exactly 1, every other cell and every
non-tile field is untouched. -/
lemma growFold_spec :
    ∀ (L : List (Location n)), L.Nodup →
      ∀ s : GameState P n,
      (∀ c ∈ L, GameState.tileEligible s.turn (s.getTile c) →
        (s.getTile c).population < 65520) →
      ∃ s', L.foldlM GameState.growStep s = some s' ∧
        (∀ c ∈ L, s'.getTile c
          = ⟨(s.getTile c).tileType,
             (s.getTile c).population
               + (if GameState.tileEligible s.turn (s.getTile c) then 1
                  else 0),
             (s.getTile c).owner⟩) ∧
        (∀ c, c ∉ L → s'.getTile c = s.getTile c) ∧
        s'.turn = s.turn ∧ s'.maxTurn = s.maxTurn ∧
        s'.playerId = s.playerId ∧ s'.lands = s.lands ∧
        s'.armies = s.armies ∧ s'.cityCount = s.cityCount ∧
        s'.generalRevealedTo = s.generalRevealedTo ∧
        s'.generals = s.generals := by
  intro L
  induction L with
  | nil =>
    intro _ s _
    exact ⟨s, rfl, fun c hc => absurd hc (List.not_mem_nil c),
      fun c _ => rfl, rfl, rfl, rfl, rfl, rfl, rfl, rfl, rfl⟩
  | cons c0 L ih =>
    intro hnd s hb
    have hc0L : c0 ∉ L := (List.nodup_cons.mp hnd).1
    by_cases he : GameState.tileEligible s.turn (s.getTile c0)
    · have hlt := hb c0 (List.mem_cons_self c0 L) he
      have hstep : GameState.growStep s c0
          = some (s.updateTile c0
              ⟨(s.getTile c0).tileType, (s.getTile c0).population + 1,
               (s.getTile c0).owner⟩) := by
        unfold GameState.growStep
        rw [if_pos he,
          GameState.changeTilePopulation_eq_some s c0 1 (by omega)
            (by omega)]
        have hv : (((s.getTile c0).population : Int) + 1).toNat
            = (s.getTile c0).population + 1 := by omega
        rw [hv]
      set s1 := s.updateTile c0
        ⟨(s.getTile c0).tileType, (s.getTile c0).population + 1,
         (s.getTile c0).owner⟩ with hs1
      have hb1 : ∀ c ∈ L, GameState.tileEligible s1.turn (s1.getTile c) →
          (s1.getTile c).population < 65520 := by
        intro c hc
        have hcne : c ≠ c0 := fun hcc => hc0L (hcc ▸ hc)
        rw [hs1, GameState.getTile_updateTile_ne _ _ hcne]
        exact hb c (List.mem_cons_of_mem _ hc)
      obtain ⟨s', hfold, k1, k2, k3, k4, k5, k6, k7, k8, k9, k10⟩ :=
        ih (List.nodup_cons.mp hnd).2 s1 hb1
      refine ⟨s', ?_, ?_, ?_, k3, k4, k5, k6, k7, k8, k9, k10⟩
      · rw [List.foldlM_cons, hstep]
        exact hfold
      · intro c hc
        rcases List.mem_cons.mp hc with hcc | hcc
        · subst hcc
          rw [k2 c hc0L, hs1, GameState.getTile_updateTile_self,
            if_pos he]
        · have hcne : c ≠ c0 := fun h0 => hc0L (h0 ▸ hcc)
          rw [k1 c hcc, hs1, GameState.getTile_updateTile_ne _ _ hcne]
          rfl
      · intro c hc
        have hcne : c ≠ c0 := fun h0 => hc (h0 ▸ List.mem_cons_self c0 L)
        have hcL : c ∉ L := fun h0 => hc (List.mem_cons_of_mem _ h0)
        rw [k2 c hcL, hs1, GameState.getTile_updateTile_ne _ _ hcne]
    · have hstep : GameState.growStep s c0 = some s := by
        unfold GameState.growStep
        rw [if_neg he]
      obtain ⟨s', hfold, k1, k2, k3, k4, k5, k6, k7, k8, k9, k10⟩ :=
        ih (List.nodup_cons.mp hnd).2 s
          (fun c hc => hb c (List.mem_cons_of_mem _ hc))
      refine ⟨s', ?_, ?_, ?_, k3, k4, k5, k6, k7, k8, k9, k10⟩
      · rw [List.foldlM_cons, hstep]
        exact hfold
      · intro c hc
        rcases List.mem_cons.mp hc with hcc | hcc
        · subst hcc
          rw [if_neg he, k2 c hc0L]
          rfl
        · exact k1 c hcc
      · intro c hc
        exact k2 c (fun h0 => hc (List.mem_cons_of_mem _ h0))

/-- The armies-growth tail of `tick`: turns and tiles untouched, army
totals incremented (u16) by `city_count` on even non-50 turns, by `lands`
on 50-cycle turns, otherwise untouched. -/
lemma armiesPhase_spec (s : GameState P n) :
    (GameState.armiesPhase s).turn = s.turn ∧
    (∀ c, (GameState.armiesPhase s).getTile c = s.getTile c) ∧
    (∀ q, (GameState.armiesPhase s).armies q
      = if s.turn % 2 = 0 ∧ s.turn % 50 ≠ 0 then
          wadd (s.armies q) (s.cityCount q)
        else if s.turn % 50 = 0 then wadd (s.armies q) (s.lands q)
        else s.armies q) := by
  unfold GameState.armiesPhase
  by_cases h1 : s.turn % 2 = 0 ∧ s.turn % 50 ≠ 0
  · rw [if_pos h1]
    exact ⟨rfl, fun _ => rfl, fun q => by rw [if_pos h1]⟩
  · rw [if_neg h1]
    by_cases h2 : s.turn % 50 = 0
    · rw [if_pos h2]
      exact ⟨rfl, fun _ => rfl,
        fun q => by rw [if_neg h1, if_pos h2]⟩
    · rw [if_neg h2]
      exact ⟨rfl, fun _ => rfl,
        fun q => by rw [if_neg h1, if_neg h2]⟩

/-- Every keyed command produced by the productive scan of
`get_possible_commands` has an occupiable destination tile (that is the
scan's own guard). -/
lemma productiveScan_occupiable (s : GameState P n) (k : Nat)
    (mv : MoveCommand n) (h : (k, mv) ∈ GameState.productiveScan s) :
    (s.getTile mv.toLoc).tileType.occupiable = true := by
  unfold GameState.productiveScan at h
  rw [List.mem_flatMap] at h
  obtain ⟨c, -, h⟩ := h
  dsimp only at h
  split at h
  · rw [List.mem_filterMap] at h
    obtain ⟨c2, -, h⟩ := h
    split at h
    · rename_i hcond
      cases h
      exact hcond.1
    · cases h
  · cases h

/-- Characterization of `get_possible_commands`: every returned command
comes from the productive scan or is the synthetic general-to-general
no-op, and when the scan is empty the result is exactly that single
no-op. -/
lemma getPossibleCommands_spec (s : GameState P n)
    (cmds : List (MoveCommand n)) (h : s.getPossibleCommands = some cmds) :
    (∀ mv ∈ cmds,
      (∃ k, (k, mv) ∈ GameState.productiveScan s) ∨
      (∃ g, unwrapLocation (s.generals s.playerId) = some g ∧
        mv = MoveCommand.mk g g false)) ∧
    (GameState.productiveScan s = [] →
      ∃ g, unwrapLocation (s.generals s.playerId) = some g ∧
        cmds = [MoveCommand.mk g g false]) := by
  unfold GameState.getPossibleCommands at h
  dsimp only at h
  by_cases he : (GameState.productiveScan s).isEmpty = true
  · rw [if_pos he] at h
    cases hg : s.getOwnGeneral with
    | none =>
      rw [hg] at h
      cases h
    | some g =>
      rw [hg] at h
      dsimp only at h
      cases h
      refine ⟨?_, fun _ => ⟨g, hg, rfl⟩⟩
      intro mv hmv
      simp only [stableSort, sortInsert, List.map_cons, List.map_nil,
        List.mem_singleton] at hmv
      exact Or.inr ⟨g, hg, hmv⟩
  · rw [if_neg he] at h
    dsimp only at h
    cases h
    have hne : ¬ GameState.productiveScan s = [] := by
      intro h0
      rw [h0] at he
      exact he rfl
    refine ⟨?_, fun h0 => absurd h0 hne⟩
    intro mv hmv
    rw [List.mem_map] at hmv
    obtain ⟨⟨k, mv'⟩, hk, hmv'⟩ := hmv
    cases hmv'
    exact Or.inl ⟨k,
      (stableSort_perm (fun a b => Nat.ble b.1 a.1)
        (GameState.productiveScan s)).mem_iff.mp hk⟩

/-- Claim C8, counterexample: in `stateC8` (own general recorded on a
visible mountain, no productive move), `get_possible_commands` returns
the synthetic no-op whose destination tile is **not** occupiable. -/
theorem claim8_counterexample :
    stateC8.getPossibleCommands
      = some [MoveCommand.mk (0, 0) (0, 0) false] ∧
    ¬ (stateC8.getTile (0, 0)).tileType.occupiable = true := by
  refine ⟨by decide, by decide⟩

/-- Claim C8 (amended): every move returned by `get_possible_commands`
has an occupiable destination whenever the tile at the recorded own
general location is occupiable (true in every reachable state; the
productive moves are unconditionally occupiable-targeted), and when no
productive move exists the result is exactly the single synthetic no-op
`from == to == own general` with `half = false`. -/
theorem claim8_amended (s : GameState P n) (cmds : List (MoveCommand n))
    (h : s.getPossibleCommands = some cmds)
    (hgocc : ∀ g, unwrapLocation (s.generals s.playerId) = some g →
      (s.getTile g).tileType.occupiable = true) :
    (∀ mv ∈ cmds, (s.getTile mv.toLoc).tileType.occupiable = true) ∧
    (GameState.productiveScan s = [] →
      ∃ g, unwrapLocation (s.generals s.playerId) = some g ∧
        cmds = [MoveCommand.mk g g false]) := by
  obtain ⟨h1, h2⟩ := getPossibleCommands_spec s cmds h
  refine ⟨?_, h2⟩
  intro mv hmv
  rcases h1 mv hmv with ⟨k, hk⟩ | ⟨g, hg, hmv'⟩
  · exact productiveScan_occupiable s k mv hk
  · cases hmv'
    exact hgocc g hg

/-- Witness for `claim8_amended` at a concrete input (`stateC1`: no
productive move, general on an occupiable tile). -/
theorem claim8_witness :
    stateC1.getPossibleCommands
      = some [MoveCommand.mk (0, 0) (0, 0) false] ∧
    (∀ mv ∈ [MoveCommand.mk ((0 : Fin 2), (0 : Fin 2)) (0, 0) false],
      (stateC1.getTile mv.toLoc).tileType.occupiable = true) :=
  ⟨by decide,
   (claim8_amended stateC1 [MoveCommand.mk (0, 0) (0, 0) false] (by decide)
     (by decide)).1⟩

/-- Claim C5, counterexample: ticking `stateC5` from turn 49 lands on
turn 50 (a 50-cycle turn), yet the unowned tile at (1,1) keeps its
population 7 — "every tile gains +1 on every 50th turn" fails for unowned
tiles (the growth rule requires an owner). -/
theorem claim5_counterexample :
    ((stateC5.tick (MoveCommand.mk (0, 0) (0, 0) false)).map
        (fun s' => ((s'.getTile (1, 1)).population, s'.turn)))
      = some (7, 50) ∧
    (stateC5.getTile (1, 1)).population = 7 ∧
    (stateC5.getTile (1, 1)).owner = none ∧
    (50 : Nat) % 50 = 0 ∧
    ¬ ((7 : Nat) = 7 + 1) := by
  refine ⟨by decide, by decide, by decide, by decide, by decide⟩

/-- Claim C5 (amended): `tick` increments the turn, applies the command
for the local player (yielding `s2`), and then grows: every **owned**
city/general tile gains exactly +1 on an even new turn, every **owned**
tile gains exactly +1 when the new turn is on the 50-cycle (one +1 even
when both conditions hold, and nothing otherwise, in particular nothing
on unowned tiles and nothing on an odd non-50 turn), and each player's
army total gains `city_count` on an ordinary even turn or `lands` on a
50-cycle turn (nothing on an odd turn). -/
theorem claim5_amended (s : GameState P n) (cmd : MoveCommand n)
    (s2 : GameState P n)
    (hpc : GameState.processCommand { s with turn := s.turn + 1 } cmd
      s.playerId false = some s2)
    (hb : ∀ c, GameState.tileEligible s2.turn (s2.getTile c) →
      (s2.getTile c).population < 65520)
    (ha1 : ∀ q, s2.armies q + s2.cityCount q < 65536)
    (ha2 : ∀ q, s2.armies q + s2.lands q < 65536) :
    ∃ s', s.tick cmd = some s' ∧
      s'.turn = s.turn + 1 ∧ s2.turn = s.turn + 1 ∧
      (∀ c, s'.getTile c
        = ⟨(s2.getTile c).tileType,
           (s2.getTile c).population
             + (if GameState.tileEligible s2.turn (s2.getTile c) then 1
                else 0),
           (s2.getTile c).owner⟩) ∧
      (∀ q, s'.armies q
        = s2.armies q
            + (if s2.turn % 2 = 0 ∧ s2.turn % 50 ≠ 0 then s2.cityCount q
               else if s2.turn % 50 = 0 then s2.lands q else 0)) := by
  have hturn2 : s2.turn = s.turn + 1 :=
    (processCommand_some_fields hpc).1
  unfold GameState.tick
  dsimp only
  rw [hpc]
  dsimp only
  obtain ⟨s3, hfold, k1, -, k3, -, -, k6, k7, k8, -, -⟩ :=
    growFold_spec (allCells n) allCells_nodup s2
      (fun c _ => hb c)
  rw [hfold]
  dsimp only
  obtain ⟨a1, a2, a3⟩ := armiesPhase_spec s3
  refine ⟨_, rfl, ?_, hturn2, ?_, ?_⟩
  · rw [a1, k3, hturn2]
  · intro c
    rw [a2 c, k1 c (mem_allCells c)]
  · intro q
    rw [a3 q, k3, k7, k8, k6]
    by_cases h1 : s2.turn % 2 = 0 ∧ s2.turn % 50 ≠ 0
    · rw [if_pos h1, if_pos h1, wadd_small (ha1 q)]
    · rw [if_neg h1, if_neg h1]
      by_cases h2 : s2.turn % 50 = 0
      · rw [if_pos h2, if_pos h2, wadd_small (ha2 q)]
      · rw [if_neg h2, if_neg h2, Nat.add_zero]

/-- Witness for `claim5_amended` at a concrete input (`stateC5` ticked
onto turn 50 with a no-op command). -/
theorem claim5_witness :
    ∃ s', stateC5.tick (MoveCommand.mk (0, 0) (0, 0) false) = some s' ∧
      s'.turn = stateC5.turn + 1 ∧
      ({ stateC5 with turn := stateC5.turn + 1 } : GameState 2 2).turn
        = stateC5.turn + 1 ∧
      (∀ c, s'.getTile c
        = ⟨(({ stateC5 with turn := stateC5.turn + 1 } :
              GameState 2 2).getTile c).tileType,
           (({ stateC5 with turn := stateC5.turn + 1 } :
              GameState 2 2).getTile c).population
             + (if GameState.tileEligible
                  ({ stateC5 with turn := stateC5.turn + 1 } :
                    GameState 2 2).turn
                  (({ stateC5 with turn := stateC5.turn + 1 } :
                    GameState 2 2).getTile c) then 1
                else 0),
           (({ stateC5 with turn := stateC5.turn + 1 } :
              GameState 2 2).getTile c).owner⟩) ∧
      (∀ q, s'.armies q
        = ({ stateC5 with turn := stateC5.turn + 1 } :
              GameState 2 2).armies q
            + (if ({ stateC5 with turn := stateC5.turn + 1 } :
                  GameState 2 2).turn % 2 = 0 ∧
                ({ stateC5 with turn := stateC5.turn + 1 } :
                  GameState 2 2).turn % 50 ≠ 0 then
                ({ stateC5 with turn := stateC5.turn + 1 } :
                  GameState 2 2).cityCount q
               else if ({ stateC5 with turn := stateC5.turn + 1 } :
                  GameState 2 2).turn % 50 = 0 then
                ({ stateC5 with turn := stateC5.turn + 1 } :
                  GameState 2 2).lands q
               else 0)) :=
  claim5_amended stateC5 (MoveCommand.mk (0, 0) (0, 0) false)
    { stateC5 with turn := stateC5.turn + 1 } (by decide) (by decide)
    (by decide) (by decide)

/-! ## Lands accounting (claim C3) -/

lemma allCells_length : (allCells n).length = n * n := by
  unfold allCells
  rw [List.length_flatMap]
  simp only [Function.comp_def, List.length_map, List.length_finRange]
  rw [List.map_const', List.sum_replicate, List.length_finRange,
    smul_eq_mul]

lemma ownedCountFor_le (s : GameState P n) (p : Fin P) :
    ownedCountFor s p ≤ n * n := by
  unfold ownedCountFor
  exact le_trans (List.countP_le_length _) (le_of_eq allCells_length)

lemma one_le_ownedCountFor {s : GameState P n} {loc : Location n} {p : Fin P}
    (h : (s.getTile loc).owner = some p) : 1 ≤ ownedCountFor s p := by
  unfold ownedCountFor
  exact List.countP_pos_iff.mpr ⟨loc, mem_allCells loc, by simp [h]⟩

/-- Swapping one list element between two Boolean predicates that agree
everywhere else transfers the counts with a correction term on each
side. -/
lemma countP_update {α : Type} (l : List α) (a : α) (hnd : l.Nodup)
    (ha : a ∈ l) (f g : α → Bool)
    (hfg : ∀ x ∈ l, x ≠ a → f x = g x) :
    l.countP f + (if g a then 1 else 0)
      = l.countP g + (if f a then 1 else 0) := by
  induction l with
  | nil => cases ha
  | cons x xs ih =>
    rw [List.nodup_cons] at hnd
    rw [List.countP_cons, List.countP_cons]
    rcases List.mem_cons.mp ha with hax | hax
    · subst hax
      have hxs : xs.countP f = xs.countP g := by
        apply List.countP_congr
        intro y hy
        rw [hfg y (List.mem_cons_of_mem _ hy) (fun hya => hnd.1 (hya ▸ hy))]
      rw [hxs]
      omega
    · have hx : f x = g x :=
        hfg x (List.mem_cons_self x xs) (fun hxa => hnd.1 (hxa ▸ hax))
      rw [hx]
      have hrec := ih hnd.2 hax
        (fun y hy hya => hfg y (List.mem_cons_of_mem _ hy) hya)
      omega

/-- Counting owned tiles when the owners differ at a single cell only. -/
lemma ownedCountFor_owner_congr {s s' : GameState P n} {loc : Location n}
    (hne : ∀ c, c ≠ loc → (s'.getTile c).owner = (s.getTile c).owner)
    (p : Fin P) :
    ownedCountFor s' p + (if (s.getTile loc).owner = some p then 1 else 0)
      = ownedCountFor s p
          + (if (s'.getTile loc).owner = some p then 1 else 0) := by
  have h := countP_update (allCells n) loc allCells_nodup
    (mem_allCells loc)
    (fun c => decide ((s'.getTile c).owner = some p))
    (fun c => decide ((s.getTile c).owner = some p))
    (fun c _ hc => by
      show decide ((s'.getTile c).owner = some p)
        = decide ((s.getTile c).owner = some p)
      rw [hne c hc])
  unfold ownedCountFor
  simpa only [decide_eq_true_eq] using h

lemma sum_ownedCountFor (s : GameState P n) :
    ∑ p : Fin P, ownedCountFor s p = ownedCount s := by
  unfold ownedCountFor ownedCount
  have key : ∀ l : List (Location n),
      ∑ p : Fin P,
          l.countP (fun c => decide ((s.getTile c).owner = some p))
        = l.countP (fun c => (s.getTile c).owner.isSome) := by
    intro l
    induction l with
    | nil => simp [List.countP_nil]
    | cons c l ih =>
      simp only [List.countP_cons]
      rw [Finset.sum_add_distrib, ih]
      congr 1
      cases ho : (s.getTile c).owner with
      | none => simp [ho]
      | some q => simp [ho]
  exact key (allCells n)

/-- Accuracy transfers across operations that keep `lands` and every
tile's owner. -/
lemma landsAccurate_congr {s s' : GameState P n}
    (hl : s'.lands = s.lands)
    (ho : ∀ c, (s'.getTile c).owner = (s.getTile c).owner)
    (h : landsAccurate s) : landsAccurate s' := by
  intro p
  rw [hl]
  have hc : ownedCountFor s' p = ownedCountFor s p := by
    unfold ownedCountFor
    apply List.countP_congr
    intro c _
    rw [ho c]
  rw [hc]
  exact h p

lemma landsAccurate_of_zero (s : GameState P n)
    (hl : ∀ p, s.lands p = 0) (ho : ∀ c, (s.getTile c).owner = none) :
    landsAccurate s := by
  intro p
  rw [hl]
  symm
  unfold ownedCountFor
  rw [List.countP_eq_zero]
  intro c _
  simp [ho c]

/-- The `lands` bookkeeping of a successful `change_tile_ownership`:
decrement the previous owner (when there is one), increment the new
owner (u16 arithmetic). -/
lemma changeTileOwnership_lands {s s' : GameState P n} {loc : Location n}
    {newOwner : Fin P} {newPop : Nat}
    (h : s.changeTileOwnership loc newOwner newPop = some s') :
    s'.lands
      = match (s.getTile loc).owner with
        | some prevOwner =>
          Function.update
            (Function.update s.lands prevOwner (wsub (s.lands prevOwner) 1))
            newOwner
            (wadd (Function.update s.lands prevOwner
              (wsub (s.lands prevOwner) 1) newOwner) 1)
        | none =>
          Function.update s.lands newOwner (wadd (s.lands newOwner) 1) := by
  unfold GameState.changeTileOwnership at h
  split at h
  · cases h
  · dsimp only at h
    cases howner : (s.getTile loc).owner with
    | none =>
      rw [howner] at h
      simp only at h
      cases h
      obtain ⟨-, -, -, -, -, -, g7, -, -, -, -, -⟩ :=
        GameState.ownershipTileUpdate_spec
          { s with
            lands := Function.update s.lands newOwner
              (wadd (s.lands newOwner) 1) } loc newOwner newPop s.playerId
      exact g7
    | some prevOwner =>
      rw [howner] at h
      simp only at h
      cases h
      obtain ⟨-, -, -, -, -, -, g7, -, -, -, -, -⟩ :=
        GameState.ownershipTileUpdate_spec
          { s with
            lands := Function.update
              (Function.update s.lands prevOwner (wsub (s.lands prevOwner) 1))
              newOwner
              (wadd (Function.update s.lands prevOwner
                (wsub (s.lands prevOwner) 1) newOwner) 1) } loc newOwner
          newPop s.playerId
      exact g7

/-- A successful `change_tile_ownership` preserves the per-player lands
invariant (the board bound keeps the u16 `lands` arithmetic exact). -/
lemma changeTileOwnership_landsAccurate {s s' : GameState P n}
    {loc : Location n} {newOwner : Fin P} {newPop : Nat}
    (hn : n * n < 65535)
    (h : s.changeTileOwnership loc newOwner newPop = some s')
    (hacc : landsAccurate s) : landsAccurate s' := by
  obtain ⟨-, -, -, -, -, -, -, hothers, hownloc, -, hno⟩ :=
    changeTileOwnership_some_fields h
  have hl := changeTileOwnership_lands h
  have hcongr := fun p => @ownedCountFor_owner_congr P n s s' loc
    (fun c hc => (hothers c hc).2) p
  intro p
  cases howner : (s.getTile loc).owner with
  | none =>
    rw [howner] at hl
    simp only at hl
    have hcount := hcongr p
    rw [howner, hownloc] at hcount
    by_cases hp : p = newOwner
    · subst hp
      rw [hl, Function.update_same, hacc p,
        wadd_small (by have := ownedCountFor_le s p; omega)]
      rw [if_neg (by simp), if_pos rfl] at hcount
      omega
    · rw [hl, Function.update_noteq hp, hacc p]
      rw [if_neg (by simp),
        if_neg (fun hc => hp (Option.some.inj hc).symm)] at hcount
      omega
  | some prevOwner =>
    rw [howner] at hl
    simp only at hl
    have hprevne : prevOwner ≠ newOwner := by
      intro hc
      rw [hc] at howner
      exact hno howner
    have hge : 1 ≤ s.lands prevOwner := by
      rw [hacc prevOwner]
      exact one_le_ownedCountFor howner
    have hlt : s.lands prevOwner < 65536 := by
      have := ownedCountFor_le s prevOwner
      rw [hacc prevOwner]
      omega
    have hcount := hcongr p
    rw [howner, hownloc] at hcount
    by_cases hp : p = newOwner
    · subst hp
      rw [hl, Function.update_same, Function.update_noteq (Ne.symm hprevne),
        hacc p, wadd_small (by have := ownedCountFor_le s p; omega)]
      rw [if_neg (fun hc => hprevne (Option.some.inj hc)),
        if_pos rfl] at hcount
      omega
    · by_cases hq : p = prevOwner
      · subst hq
        rw [hl, Function.update_noteq hp, Function.update_same,
          wsub_small hge hlt, hacc p]
        rw [if_pos rfl,
          if_neg (fun hc => hp (Option.some.inj hc).symm)] at hcount
        have h1 := one_le_ownedCountFor howner
        omega
      · rw [hl, Function.update_noteq hp, Function.update_noteq hq, hacc p]
        rw [if_neg (fun hc => hq (Option.some.inj hc).symm),
          if_neg (fun hc => hp (Option.some.inj hc).symm)] at hcount
        omega

lemma attackResolve_landsAccurate {sFrom : GameState P n}
    {toLoc : Location n} {p : Fin P} {tt : Tile P} {m : Nat}
    {r : GameState P n × Nat} (hn : n * n < 65535)
    (h : GameState.attackResolve sFrom toLoc p tt m = some r)
    (hacc : landsAccurate sFrom) : landsAccurate r.1 := by
  unfold GameState.attackResolve at h
  split at h
  · split at h
    · cases h
    · rename_i sOwn hcto
      have hOwn := changeTileOwnership_landsAccurate hn hcto hacc
      split at h
      · cases h
      · rename_i sGen hgen
        have hg : sGen.lands = sOwn.lands ∧
            ∀ c, (sGen.getTile c).owner = (sOwn.getTile c).owner := by
          split at hgen
          · split at hgen
            · cases hgen
              exact ⟨rfl, fun _ => rfl⟩
            · cases hgen
          · cases hgen
            exact ⟨rfl, fun _ => rfl⟩
        have hGen := landsAccurate_congr hg.1 hg.2 hOwn
        split at h
        · cases h
        · split at h
          · cases h
            exact landsAccurate_congr rfl (fun _ => rfl) hGen
          · cases h
            exact landsAccurate_congr rfl (fun _ => rfl) hGen
  · split at h
    · cases h
    · rename_i sDef hctp
      cases h
      obtain ⟨-, -, -, f4, -, -, -, -, -, f10, -⟩ :=
        changeTilePopulation_some_fields hctp
      exact landsAccurate_congr f4 (fun c => (f10 c).2) hacc

lemma resolveCommand_landsAccurate {s1 s' : GameState P n}
    {cmd : MoveCommand n} {p : Fin P} (hn : n * n < 65535)
    (h : GameState.resolveCommand s1 cmd p = some s')
    (hacc : landsAccurate s1) : landsAccurate s' := by
  unfold GameState.resolveCommand at h
  dsimp only at h
  split at h
  · cases h
    exact hacc
  · split at h
    · cases h
      exact hacc
    · split at h
      · cases h
      · rename_i sFrom hctp
        obtain ⟨-, -, -, f4, -, -, -, -, -, f10, -⟩ :=
          changeTilePopulation_some_fields hctp
        have hFrom := landsAccurate_congr f4 (fun c => (f10 c).2) hacc
        split at h
        · obtain ⟨-, -, -, g4, -, -, -, -, -, g10, -⟩ :=
            changeTilePopulation_some_fields h
          exact landsAccurate_congr g4 (fun c => (g10 c).2) hFrom
        · split at h
          · cases h
          · rename_i sAtk evap har
            have hAtk := attackResolve_landsAccurate hn har hFrom
            split at h
            · cases h
              exact landsAccurate_congr rfl (fun _ => rfl) hAtk
            · cases h
              exact landsAccurate_congr rfl (fun _ => rfl) hAtk

lemma processCommand_false_landsAccurate {s s' : GameState P n}
    {cmd : MoveCommand n} {p : Fin P} (hn : n * n < 65535)
    (h : s.processCommand cmd p false = some s')
    (hacc : landsAccurate s) : landsAccurate s' := by
  unfold GameState.processCommand at h
  rw [GameState.phantomize_false] at h
  exact resolveCommand_landsAccurate hn h hacc

lemma growStep_lands_owner {s s' : GameState P n} {c : Location n}
    (h : GameState.growStep s c = some s') :
    s'.lands = s.lands ∧
    ∀ c', (s'.getTile c').owner = (s.getTile c').owner := by
  unfold GameState.growStep at h
  split at h
  · obtain ⟨-, -, -, f4, -, -, -, -, -, f10, -⟩ :=
      changeTilePopulation_some_fields h
    exact ⟨f4, fun c' => (f10 c').2⟩
  · cases h
    exact ⟨rfl, fun _ => rfl⟩

lemma growFoldM_lands_owner :
    ∀ (L : List (Location n)) {s s' : GameState P n},
      L.foldlM GameState.growStep s = some s' →
      s'.lands = s.lands ∧
      ∀ c', (s'.getTile c').owner = (s.getTile c').owner
  | [], s, s', h => by
    cases h
    exact ⟨rfl, fun _ => rfl⟩
  | c0 :: L, s, s', h => by
    rw [List.foldlM_cons] at h
    cases hg : GameState.growStep s c0 with
    | none =>
      rw [hg] at h
      exact Option.noConfusion h
    | some s1 =>
      rw [hg] at h
      obtain ⟨j1, j2⟩ := growStep_lands_owner hg
      obtain ⟨k1, k2⟩ := growFoldM_lands_owner L h
      exact ⟨k1.trans j1, fun c' => (k2 c').trans (j2 c')⟩

lemma armiesPhase_lands (s : GameState P n) :
    (GameState.armiesPhase s).lands = s.lands := by
  unfold GameState.armiesPhase
  split
  · rfl
  · split
    · rfl
    · rfl

lemma tick_landsAccurate {s s' : GameState P n} {cmd : MoveCommand n}
    (hn : n * n < 65535) (h : s.tick cmd = some s')
    (hacc : landsAccurate s) : landsAccurate s' := by
  unfold GameState.tick at h
  dsimp only at h
  split at h
  · cases h
  · rename_i s2 hpc
    have hacc1 : landsAccurate ({ s with turn := s.turn + 1 } : GameState P n) :=
      landsAccurate_congr rfl (fun _ => rfl) hacc
    have hacc2 := processCommand_false_landsAccurate hn hpc hacc1
    split at h
    · cases h
    · rename_i s3 hfold
      cases h
      obtain ⟨k1, k2⟩ := growFoldM_lands_owner (allCells n) hfold
      have hacc3 := landsAccurate_congr k1 k2 hacc2
      obtain ⟨-, a2, -⟩ := armiesPhase_spec s3
      exact landsAccurate_congr (armiesPhase_lands s3)
        (fun c => by rw [a2 c]) hacc3

lemma new_landsAccurate (pid : Fin P) (g : Location n) :
    landsAccurate (GameState.new pid g) := by
  unfold GameState.new
  dsimp only
  apply landsAccurate_of_zero
  · intro p
    rfl
  · intro c
    by_cases hc : c = g
    · subst hc
      rw [GameState.getTile_updateTile_self]
      rfl
    · rw [GameState.getTile_updateTile_ne _ _ hc]
      rfl

/-- Claim C3, counterexample: the enemy move `ExpandLand`, applied during
search to the fresh state of `GameState::new` on a 2×2 board (a state
reachable by the model's own operations), increments `lands[1]` without
granting any tile, so `sum(lands) = 1` while no tile is owned (the fresh
general tile is ownerless: the source discards
`change_tile_ownership`'s result). -/
theorem claim3_counterexample :
    ∃ s' : GameState 2 2, Reachable s' ∧
      EnemyMove.applyOnState EnemyMove.ExpandLand
        (GameState.new 0 ((0 : Fin 2), (0 : Fin 2))) 1 = some s' ∧
      ¬ ((∑ p : Fin 2, s'.lands p) = ownedCount s') := by
  refine ⟨_, ?_, rfl, ?_⟩
  · exact Reachable.enemyStep EnemyMove.ExpandLand 1
      (Reachable.new 0 ((0 : Fin 2), (0 : Fin 2))) rfl
  · decide

/-- Claim C3 (amended): restricted to states reachable by `GameState::new`
and `tick` with real commands (`is_inferred = false`) on a board with
`n·n < 65535`, the invariant holds, in the stronger per-player form: each
`lands[p]` equals the number of tiles owned by `p`, so their sum is the
number of owned tiles; nonnegativity is trivial (u16 storage). The enemy
moves of the search (`ExpandLand` and the phantom armies of inferred
invasions) break it. -/
theorem claim3_amended (s : GameState P n) (hn : n * n < 65535)
    (hr : ReachableCore s) :
    (∀ p, s.lands p = ownedCountFor s p) ∧
    (∑ p : Fin P, s.lands p) = ownedCount s ∧
    (∀ p, 0 ≤ s.lands p) := by
  have hacc : landsAccurate s := by
    induction hr with
    | new pid g => exact new_landsAccurate pid g
    | tickStep cmd hprev htick ih => exact tick_landsAccurate hn htick ih
  refine ⟨hacc, ?_, fun p => Nat.zero_le _⟩
  rw [Finset.sum_congr rfl (fun p _ => hacc p), sum_ownedCountFor]

/-- Witness for `claim3_amended` at a concrete reachable state (the fresh
2×2 state of `GameState::new`). -/
theorem claim3_witness :
    (∀ p : Fin 2,
      (GameState.new 0 ((0 : Fin 2), (0 : Fin 2)) : GameState 2 2).lands p
        = ownedCountFor
            (GameState.new 0 ((0 : Fin 2), (0 : Fin 2)) : GameState 2 2) p) ∧
    (∑ p : Fin 2,
      (GameState.new 0 ((0 : Fin 2), (0 : Fin 2)) : GameState 2 2).lands p)
        = ownedCount
            (GameState.new 0 ((0 : Fin 2), (0 : Fin 2)) : GameState 2 2) ∧
    (∀ p : Fin 2,
      0 ≤ (GameState.new 0 ((0 : Fin 2), (0 : Fin 2)) :
        GameState 2 2).lands p) :=
  claim3_amended (GameState.new 0 ((0 : Fin 2), (0 : Fin 2)) : GameState 2 2)
    (by decide)
    (ReachableCore.new 0 ((0 : Fin 2), (0 : Fin 2)))

/-! ## Best-move selection (claim C10) -/

/-- The running argmax of a fold with an `if`-choice step stays inside the
initial value and the list. -/
lemma foldl_ite_mem {α : Type} (p : α → α → Prop) [DecidableRel p] :
    ∀ (l : List α) (a : α),
      l.foldl (fun best x => if p best x then x else best) a ∈ a :: l
  | [], a => List.mem_singleton.mpr rfl
  | b :: l, a => by
    rw [List.foldl_cons]
    by_cases h : p a b
    · rw [if_pos h]
      rcases List.mem_cons.mp (foldl_ite_mem p l b) with h1 | h1
      · rw [h1]
        exact List.mem_cons_of_mem _ (List.mem_cons_self b l)
      · exact List.mem_cons_of_mem _ (List.mem_cons_of_mem _ h1)
    · rw [if_neg h]
      rcases List.mem_cons.mp (foldl_ite_mem p l a) with h1 | h1
      · rw [h1]
        exact List.mem_cons_self a _
      · exact List.mem_cons_of_mem _ (List.mem_cons_of_mem _ h1)

/-- Claim C10: for a tree whose root `MctsTree::new` built from a game
state (the root's search turn is the local player), when the root has
children the best child's move is a `Friendly` command, so
`get_best_move` returns it and the fatal `Enemy`-branch is unreachable:
every root child carries one of the root's legal moves, which are the
local player's commands. -/
theorem claim10 (s : GameState P n) (t : MctsTree P n)
    (hroot : t.rootState = mctsRootWrapper s)
    (hne : t.children ≠ []) :
    ∃ m, bestMove t = some (CombinedMoveCommand.Friendly m) ∧
      getBestMove t = some m := by
  cases hc : t.children with
  | nil => exact absurd hc hne
  | cons c cs =>
    have hmem : cs.foldl
        (fun best x => if childMean best < childMean x then x else best) c
        ∈ c :: cs :=
      foldl_ite_mem (fun best x => childMean best < childMean x) cs c
    rw [← hc] at hmem
    have hmv := t.children_mem _ hmem
    have hleg := t.rootMoves_eq
    rw [hroot] at hleg
    unfold legalsMoves mctsRootWrapper at hleg
    dsimp only at hleg
    rw [if_pos rfl] at hleg
    cases hg : s.getPossibleCommands with
    | none =>
      rw [hg] at hleg
      cases hleg
    | some l =>
      rw [hg] at hleg
      have hrm : t.rootMoves = l.map CombinedMoveCommand.Friendly :=
        (Option.some.inj hleg).symm
      rw [hrm] at hmv
      obtain ⟨mv, hmvl, hmveq⟩ := List.mem_map.mp hmv
      have hbm : bestMove t = some (CombinedMoveCommand.Friendly mv) := by
        unfold bestMove
        rw [hc]
        dsimp only
        rw [← hmveq]
      refine ⟨mv, hbm, ?_⟩
      unfold getBestMove
      rw [hbm]

/-- Witness for `claim10` at a concrete input: the one-child tree
`treeC10` rooted at `stateC1`. -/
theorem claim10_witness :
    ∃ m, bestMove treeC10 = some (CombinedMoveCommand.Friendly m) ∧
      getBestMove treeC10 = some m :=
  claim10 stateC1 treeC10 rfl (by decide)

end GeneralsIo
